import Mathlib

/-!
Verification of the ForensicX-Toolkit file-carving engine
(`src/recovery/file_recovery.py`) against its natural-language
specification.

The engine is shallowly embedded: bytes are natural numbers, a device is a
byte list together with a read cursor, and each Python loop becomes a
fuel-indexed recursive function (the fuel passed by the top-level wrappers
is provably sufficient, since every loop iteration either returns or
consumes at least one byte of the finite source).  Wall-clock time cannot
be embedded; the cooperative timeout flag is modelled as a Boolean oracle
indexed by the block-iteration counter, and the ten-second progress
condition as an abstract Boolean.  Logging is modelled only where a claim
refers to it: the per-hit debug line (file_recovery.py line 188) becomes
the `hitsLog` field of the scan state.
-/

namespace ForensicX

set_option maxRecDepth 40000

/-- A byte is modelled as a natural number (all concrete data uses 0-255). -/
abbrev Byte := Nat

/-- FILE_SIGNATURES table (file_recovery.py lines 14-26): leading magic byte
sequences per format tag. -/
def FILE_SIGNATURES : List (String × List (List Byte)) :=
  [("jpg", [[0xFF, 0xD8, 0xFF, 0xE0], [0xFF, 0xD8, 0xFF, 0xE1]]),
   ("png", [[0x89, 0x50, 0x4E, 0x47, 0x0D, 0x0A, 0x1A, 0x0A]]),
   ("gif", [[0x47, 0x49, 0x46, 0x38, 0x37, 0x61], [0x47, 0x49, 0x46, 0x38, 0x39, 0x61]]),
   ("pdf", [[0x25, 0x50, 0x44, 0x46]]),
   ("zip", [[0x50, 0x4B, 0x03, 0x04]]),
   ("docx", [[0x50, 0x4B, 0x03, 0x04, 0x14, 0x00, 0x06, 0x00]]),
   ("xlsx", [[0x50, 0x4B, 0x03, 0x04, 0x14, 0x00, 0x06, 0x00]]),
   ("pptx", [[0x50, 0x4B, 0x03, 0x04, 0x14, 0x00, 0x06, 0x00]]),
   ("mp3", [[0x49, 0x44, 0x33]]),
   ("mp4", [[0x00, 0x00, 0x00, 0x18, 0x66, 0x74, 0x79, 0x70]]),
   ("avi", [[0x52, 0x49, 0x46, 0x46]])]

/-- `FILE_SIGNATURES.get(file_type, [])`. -/
def fileSignatures (t : String) : List (List Byte) :=
  (List.lookup t FILE_SIGNATURES).getD []

/-- VALIDATION_PATTERNS table (lines 28-34); the byte strings are the ASCII
encodings used in the source (`word/`, `[Content_Types].xml`, `xl/`, `ppt/`,
`PK\x01\x02`, `obj`, `endobj`). -/
def VALIDATION_PATTERNS : List (String × List (List Byte)) :=
  [("docx", [[119, 111, 114, 100, 47],
             [91, 67, 111, 110, 116, 101, 110, 116, 95, 84, 121, 112, 101, 115, 93, 46, 120, 109, 108]]),
   ("xlsx", [[120, 108, 47],
             [91, 67, 111, 110, 116, 101, 110, 116, 95, 84, 121, 112, 101, 115, 93, 46, 120, 109, 108]]),
   ("pptx", [[112, 112, 116, 47],
             [91, 67, 111, 110, 116, 101, 110, 116, 95, 84, 121, 112, 101, 115, 93, 46, 120, 109, 108]]),
   ("zip", [[80, 75, 1, 2]]),
   ("pdf", [[111, 98, 106], [101, 110, 100, 111, 98, 106]])]

/-- `VALIDATION_PATTERNS.get(file_type, [])`. -/
def validationPatterns (t : String) : List (List Byte) :=
  (List.lookup t VALIDATION_PATTERNS).getD []

/-- FILE_TRAILERS table (lines 36-41). -/
def FILE_TRAILERS : List (String × List Byte) :=
  [("jpg", [0xFF, 0xD9]),
   ("png", [0x49, 0x45, 0x4E, 0x44, 0xAE, 0x42, 0x60, 0x82]),
   ("gif", [0x00, 0x3B]),
   ("pdf", [0x25, 0x25, 0x45, 0x4F, 0x46])]

/-- `FILE_TRAILERS.get(file_type)`. -/
def fileTrailer (t : String) : Option (List Byte) :=
  List.lookup t FILE_TRAILERS

/-- MAX_FILE_SIZES table (lines 43-55). -/
def MAX_FILE_SIZES : List (String × Nat) :=
  [("jpg", 30 * 1024 * 1024),
   ("png", 50 * 1024 * 1024),
   ("gif", 20 * 1024 * 1024),
   ("pdf", 100 * 1024 * 1024),
   ("zip", 200 * 1024 * 1024),
   ("docx", 50 * 1024 * 1024),
   ("xlsx", 50 * 1024 * 1024),
   ("pptx", 100 * 1024 * 1024),
   ("mp3", 50 * 1024 * 1024),
   ("mp4", 1024 * 1024 * 1024),
   ("avi", 1024 * 1024 * 1024)]

/-- `MAX_FILE_SIZES.get(file_type, 10 * 1024 * 1024)` (line 230). -/
def maxFileSize (t : String) : Nat :=
  (List.lookup t MAX_FILE_SIZES).getD (10 * 1024 * 1024)

/-- An open source: the raw byte content plus the current read cursor. -/
structure Device where
  data : List Byte
  cursor : Nat
deriving DecidableEq

/-- `device.read(n)`: a blocking positioned read returning up to `n` bytes
from the cursor (fewer at end of stream, empty at or past the end), and
advancing the cursor by the number of bytes returned. -/
def Device.read (d : Device) (n : Nat) : List Byte × Device :=
  let chunk := (d.data.drop d.cursor).take n
  (chunk, { d with cursor := d.cursor + chunk.length })

/-- `device.seek(p)`. -/
def Device.seek (d : Device) (p : Nat) : Device :=
  { d with cursor := p }

/-- `device.tell()`. -/
def Device.tell (d : Device) : Nat :=
  d.cursor

/-- Whether `needle` occurs in `hay` starting exactly at index `i`
(the match must lie entirely inside `hay`). -/
def matchAt (hay needle : List Byte) (i : Nat) : Bool :=
  decide ((hay.drop i).take needle.length = needle)

/-- Scans indices `i, i+1, ..., i+steps-1` and returns the least index where
`needle` matches, if any. -/
def bytesFindGo (hay needle : List Byte) : Nat → Nat → Option Nat
  | _, 0 => none
  | i, steps + 1 =>
    if matchAt hay needle i then some i else bytesFindGo hay needle (i + 1) steps

/-- Python `hay.find(needle, start)`: least index `≥ start` at which `needle`
occurs wholly inside `hay` (`none` for Python's `-1`). -/
def bytesFind (hay needle : List Byte) (start : Nat) : Option Nat :=
  bytesFindGo hay needle start (hay.length + 1 - start)

/-- Python `needle in hay`. -/
def containsSub (hay needle : List Byte) : Bool :=
  (bytesFind hay needle 0).isSome

/-- `_validate_file_content` (lines 218-227): reject buffers under 100 bytes;
with validation patterns present accept iff some pattern occurs anywhere;
with no patterns accept on size alone. -/
def validateFileContent (data : List Byte) (fileType : String) : Bool :=
  if data.length < 100 then false
  else
    let patterns := validationPatterns fileType
    if patterns.isEmpty then true
    else patterns.any (fun p => containsSub data p)

/-- One iteration step of `_read_until_trailer`'s accumulation loop
(lines 271-282), fuel-indexed.  Each non-returning iteration reads a
nonempty chunk, so `fuel = remaining source length + 1` is enough for the
fuel never to run out before the loop's own exits fire. -/
def readUntilTrailerLoop (trailer : List Byte) (maxSize : Nat) :
    Nat → Device → List Byte → Option (List Byte) × Device
  | 0, dev, buffer =>
    (if buffer.length > 100 then some buffer else none, dev)
  | fuel + 1, dev, buffer =>
    if buffer.length < maxSize then
      let r := dev.read 4096
      if r.1.isEmpty then
        (if buffer.length > 100 then some buffer else none, r.2)
      else
        let buffer2 := buffer ++ r.1
        -- search start `max(0, len(buffer) - len(trailer) - chunk_size)`
        -- is Nat-saturating subtraction on the extended buffer (line 277);
        -- `trailer_pos != -1` is the isSome test on the find result
        let fnd := bytesFind buffer2 trailer (buffer2.length - (trailer.length + 4096))
        if fnd.isSome then (some (buffer2.take (fnd.getD 0 + trailer.length)), r.2)
        else readUntilTrailerLoop trailer maxSize fuel r.2 buffer2
    else
      (if buffer.length > 100 then some buffer else none, dev)

/-- `_read_until_trailer` (lines 268-283). -/
def readUntilTrailer (dev : Device) (trailer : List Byte) (maxSize : Nat) :
    Option (List Byte) × Device :=
  readUntilTrailerLoop trailer maxSize (dev.data.length + 1) dev []

/-- The container formats given a larger initial probe chunk (line 290). -/
def containerTypes : List String := ["docx", "xlsx", "pptx", "zip"]

/-- The known binary format tags of line 310. -/
def knownBinaryTypes : List String :=
  ["jpg", "png", "gif", "pdf", "zip", "docx", "xlsx", "pptx", "mp3", "mp4", "avi"]

/-- The PK-container tags of line 312. -/
def pkContainerTypes : List String := ["zip", "docx", "xlsx", "pptx"]

/-- `32 <= b <= 126 or b in (9, 10, 13)` (line 315). -/
def isPrintable (b : Byte) : Bool :=
  (32 ≤ b && b ≤ 126) || b == 9 || b == 10 || b == 13

/-- Number of printable bytes of a chunk (numerator of `printable_ratio`). -/
def printableCount (l : List Byte) : Nat :=
  (l.filter isPrintable).length

/-- The chunk-accumulation loop of `_read_file_heuristic` (lines 304-325),
fuel-indexed; carries the running `valid_chunks` / `invalid_chunks` counts.
`printable_ratio < 0.7` is the integer comparison
`10 * printableCount chunk < 7 * chunk.length`; the trim
`buffer[:len(buffer) - invalid_chunks * chunk_size]` uses Nat-saturating
subtraction, which agrees with the Python slice on every reachable state
(when the trim fires the buffer always holds more than
`invalid_chunks * 4096` bytes). -/
def heuristicLoop (fileType : String) (maxSize : Nat) :
    Nat → Device → List Byte → Nat → Nat → Option (List Byte) × Device
  | 0, dev, buffer, _, _ => (some buffer, dev)
  | fuel + 1, dev, buffer, validChunks, invalidChunks =>
    if buffer.length < maxSize then
      let r := dev.read 4096
      if r.1.isEmpty then (some buffer, r.2)
      else
        let buffer2 := buffer ++ r.1
        let counts :=
          if fileType ∈ knownBinaryTypes then
            let v := validChunks + 1
            if fileType ∈ pkContainerTypes ∧ ¬ containsSub r.1 [80, 75] ∧ v > 10 then
              (v, invalidChunks + 1)
            else (v, invalidChunks)
          else
            if 10 * printableCount r.1 < 7 * r.1.length then
              (validChunks, invalidChunks + 1)
            else (validChunks + 1, invalidChunks)
        if counts.2 > 3 then
          (some (buffer2.take (buffer2.length - counts.2 * 4096)), r.2)
        else heuristicLoop fileType maxSize fuel r.2 buffer2 counts.1 counts.2
    else (some buffer, dev)

/-- `_read_file_heuristic` (lines 285-325): initial probe chunk (16 KiB for
container formats, 4 KiB otherwise), early container-marker rejection, then
the chunk-accumulation loop. -/
def readFileHeuristic (dev : Device) (fileType : String) (maxSize : Nat) :
    Option (List Byte) × Device :=
  let initialChunkSize := if fileType ∈ containerTypes then 16384 else 4096
  let r := dev.read initialChunkSize
  if r.1.isEmpty then (none, r.2)
  else
    if fileType = "docx" ∧ ¬ containsSub r.1 [119, 111, 114, 100, 47] then (none, r.2)
    else if fileType = "xlsx" ∧ ¬ containsSub r.1 [120, 108, 47] then (none, r.2)
    else if fileType = "pptx" ∧ ¬ containsSub r.1 [112, 112, 116, 47] then (none, r.2)
    else if fileType = "zip" ∧ ¬ containsSub r.1 [80, 75, 1, 2] then (none, r.2)
    else heuristicLoop fileType maxSize (dev.data.length + 1) r.2 r.1 0 0

/-- A candidate file written to the output tree: format tag, absolute start
offset on the source, and the exact byte content written. -/
structure FileRecord where
  fileType : String
  startPosition : Nat
  data : List Byte
deriving DecidableEq

/-- The scan session options the carving engine consumes
(`FileRecoveryTool.__init__`); `maxScanSize = some 0` is falsy in Python
and therefore imposes no limit, exactly as in `_scan_device_data`. -/
structure Config where
  fileTypes : List String
  deepScan : Bool
  blockSize : Nat
  maxScanSize : Option Nat
deriving DecidableEq

/-- The strategy selection of lines 242-245: trailer-bounded extraction
only when the format has a trailer and deep scan is enabled, heuristic
extraction otherwise. -/
def extractCandidate (cfg : Config) (dev : Device) (fileType : String) :
    Option (List Byte) × Device :=
  match fileTrailer fileType with
  | some tr =>
    if cfg.deepScan then readUntilTrailer dev tr (maxFileSize fileType)
    else readFileHeuristic dev fileType (maxFileSize fileType)
  | none => readFileHeuristic dev fileType (maxFileSize fileType)

/-- `_recover_file` (lines 229-266).  The output filename embeds a fresh
random disambiguator, so the `skip_existing` collision check
(`output_path.exists()`) is modelled as never firing.  The `finally` block
restores the cursor saved by `device.tell()` on every exit path.  A
returned record is a file written under the output root (line 254-255);
`none` means no file was created for this hit. -/
def recoverFile (cfg : Config) (dev : Device) (fileType : String) (startPosition : Nat) :
    Option FileRecord × Device :=
  let currentPos := dev.tell
  let ext := extractCandidate cfg (dev.seek startPosition) fileType
  let result : Option FileRecord :=
    match ext.1 with
    | none => none
    | some d =>
      if d.length < 100 then none
      else if validateFileContent d fileType then
        some ⟨fileType, startPosition, d⟩
      else none
  (result, ext.2.seek currentPos)

/-- The mutable scan statistics plus the outputs a run produces: the
recovered-file records (files written under the output root, in order), the
per-hit debug log of line 188, and the timeout flag. -/
structure ScanState where
  totalFilesRecovered : Nat
  recoveredByType : List (String × Nat)
  bytesScanned : Nat
  falsePositives : Nat
  recoveredFiles : List FileRecord
  hitsLog : List (String × Nat)
  timeoutReached : Bool
deriving DecidableEq

/-- Python-dict assignment `m[k] = v` on an association list: overwrite in
place if the key is present, append otherwise. -/
def dictSet (m : List (String × Nat)) (k : String) (v : Nat) : List (String × Nat) :=
  if (List.lookup k m).isSome then
    m.map (fun kv => if kv.1 = k then (kv.1, v) else kv)
  else m ++ [(k, v)]

/-- Python `m[k] += 1` (the key is always present at every call site,
because the scan only increments tags it initialized to zero). -/
def dictIncr (m : List (String × Nat)) (k : String) : List (String × Nat) :=
  m.map (fun kv => if kv.1 = k then (kv.1, kv.2 + 1) else kv)

/-- `for f in self.file_types: self.stats['recovered_by_type'][f] = 0`
(lines 91-92). -/
def initRecoveredByType (fileTypes : List String) : List (String × Nat) :=
  fileTypes.foldl (fun m f => dictSet m f 0) []

/-- Initial `self.stats` (lines 84-92) plus empty output and log. -/
def initState (cfg : Config) : ScanState :=
  { totalFilesRecovered := 0
    recoveredByType := initRecoveredByType cfg.fileTypes
    bytesScanned := 0
    falsePositives := 0
    recoveredFiles := []
    hitsLog := []
    timeoutReached := false }

/-- Handling of one signature hit (lines 186-193): seek to the absolute
offset, log the hit, attempt recovery, and fold the outcome into the
statistics. -/
def handleHit (cfg : Config) (dev : Device) (fileType : String) (absolutePos : Nat)
    (st : ScanState) : ScanState × Device :=
  let dev2 := dev.seek absolutePos
  let st2 := { st with hitsLog := st.hitsLog ++ [(fileType, absolutePos)] }
  let r := recoverFile cfg dev2 fileType absolutePos
  match r.1 with
  | some rec =>
    ({ st2 with totalFilesRecovered := st2.totalFilesRecovered + 1
                recoveredByType := dictIncr st2.recoveredByType fileType
                recoveredFiles := st2.recoveredFiles ++ [rec] }, r.2)
  | none => ({ st2 with falsePositives := st2.falsePositives + 1 }, r.2)

/-- Handling of one signature of one type inside the current block
(lines 183-194): `data.find(signature)`; on a hit compute the absolute
offset, handle it, and re-seek to the next block boundary. -/
def sigStep (cfg : Config) (data : List Byte) (position : Nat) (fileType : String)
    (acc : ScanState × Device) (signature : List Byte) : ScanState × Device :=
  match bytesFind data signature 0 with
  | some sigPos =>
    let h := handleHit cfg acc.2 fileType (position + sigPos) acc.1
    (h.1, h.2.seek (position + cfg.blockSize))
  | none => acc

/-- The per-block signature sweep (lines 181-194): for every selected type
and each of its magic sequences, run `sigStep`. -/
def processBlock (cfg : Config) (data : List Byte) (position : Nat)
    (dev : Device) (st : ScanState) : ScanState × Device :=
  cfg.fileTypes.foldl
    (fun acc fileType => (fileSignatures fileType).foldl (sigStep cfg data position fileType) acc)
    (st, dev)

/-- The block sweep of `_scan_device_data` (lines 170-216), fuel-indexed.
`flag iter` is the cooperative timeout flag as observed at the top of block
iteration `iter` (in the source it is set asynchronously by the SIGALRM
handler and only read here); progress reporting (lines 197-213) touches no
scan state and is modelled separately by `shouldEmitProgress`/`etaReport`.
Reads in the model are total, so the per-position exception handler of
lines 214-216 has no analogue. -/
def scanLoop (cfg : Config) (flag : Nat → Bool) (deviceSize : Nat) :
    Nat → Nat → Nat → Device → ScanState → ScanState × Device
  | 0, _, _, dev, st => (st, dev)
  | fuel + 1, iter, position, dev, st =>
    if position < deviceSize then
      if flag iter then ({ st with timeoutReached := true }, dev)
      else
        let r := (dev.seek position).read cfg.blockSize
        if r.1.isEmpty then (st, r.2)
        else
          let st2 := { st with bytesScanned := st.bytesScanned + r.1.length }
          let p := processBlock cfg r.1 position r.2 st2
          scanLoop cfg flag deviceSize fuel (iter + 1) (position + cfg.blockSize) p.2 p.1
    else (st, dev)

/-- The effective scan ceiling (lines 160-162): `min(size, max_scan_size)`
with Python truthiness (`max_scan_size = 0` imposes no limit). -/
def effectiveScanSize (cfg : Config) (deviceSize : Nat) : Nat :=
  match cfg.maxScanSize with
  | some m => if m ≠ 0 ∧ m < deviceSize then m else deviceSize
  | none => deviceSize

/-- `_scan_device_data` on a regular-file source (its size is the content
length); the sweep starts at position 0 with the statistics freshly
initialized. -/
def scanDeviceData (cfg : Config) (flag : Nat → Bool) (dev : Device) :
    ScanState × Device :=
  let deviceSize := effectiveScanSize cfg dev.data.length
  scanLoop cfg flag deviceSize (deviceSize + 1) 0 0 (dev.seek 0) (initState cfg)

/-- The progress-emission condition of line 198, with the new cursor value
(after `position += block_size`) and the wall-clock ten-second condition
abstracted as a Boolean. -/
def shouldEmitProgress (position : Nat) (tenSecondsElapsed : Bool) : Bool :=
  (position % (5 * 1024 * 1024) == 0) || tenSecondsElapsed

/-- What the progress line reports as ETA. -/
inductive EtaReport
  | unknown
  | finite (seconds : ℚ)
deriving DecidableEq

/-- The ETA computation of lines 201-207, with real-valued wall-clock
quantities as rationals: when `position > 0 and device_size > 0` the code
always produces a finite ETA string (zero throughput gives `0` seconds,
printed as `0:00:00`); the string `"unknown"` is produced only in the
`else` branch. -/
def etaReport (position deviceSize : Nat) (elapsed : ℚ) : EtaReport :=
  if position > 0 ∧ deviceSize > 0 then
    let bytesPerSecond : ℚ := if elapsed > 0 then (position : ℚ) / elapsed else 0
    let remainingBytes : ℚ := (deviceSize : ℚ) - (position : ℚ)
    let etaSeconds : ℚ := if bytesPerSecond > 0 then remainingBytes / bytesPerSecond else 0
    EtaReport.finite etaSeconds
  else EtaReport.unknown

/-- Sum of the per-format counters (the right-hand side of the C10
bookkeeping invariant). -/
def sumCounts (m : List (String × Nat)) : Nat :=
  (m.map (fun kv => kv.2)).sum

/-- The keys of a counter table. -/
def keysOf (m : List (String × Nat)) : List String :=
  m.map (fun kv => kv.1)

/-- The statistics bookkeeping invariant: the per-format table has
duplicate-free keys, the total equals the sum of the per-format counts, and
every selected format tag has an entry. -/
def statsInvariant (cfg : Config) (st : ScanState) : Prop :=
  (keysOf st.recoveredByType).Nodup ∧
  st.totalFilesRecovered = sumCounts st.recoveredByType ∧
  ∀ t ∈ cfg.fileTypes, (List.lookup t st.recoveredByType).isSome = true

/-- The sweep truncated to at most `k` block iterations, with no timeout:
the reference point for what a timeout observed at the k-th block-iteration
check preserves. -/
def scanPrefix (cfg : Config) (src : List Byte) (k : Nat) : ScanState × Device :=
  scanLoop cfg (fun _ => false) (effectiveScanSize cfg src.length) k 0 0
    ⟨src, 0⟩ (initState cfg)

/-- Equality of two scan states on every field except `bytesScanned`: the
recovery outputs, the counters, the hit log and the timeout flag. -/
def auditEq (a b : ScanState) : Prop :=
  a.recoveredFiles = b.recoveredFiles ∧
  a.totalFilesRecovered = b.totalFilesRecovered ∧
  a.falsePositives = b.falsePositives ∧
  a.hitsLog = b.hitsLog ∧
  a.timeoutReached = b.timeoutReached

/-! ### Concrete test fixtures used by the counterexamples and witnesses -/

/-- A 710-byte buffer: the only jpg magic occurrence starts at offset 510,
straddling the default 512-byte block boundary; the jpg trailer first occurs
ending at offset 709 (candidate span 510-709, 200 bytes). -/
def srcCexC1 : List Byte :=
  List.replicate 510 0 ++ [0xFF, 0xD8, 0xFF, 0xE0] ++
    List.replicate 194 0x41 ++ [0xFF, 0xD9]

/-- Deep-scan session over jpg only, default 512-byte blocks, no limits. -/
def cfgCexC1 : Config := ⟨["jpg"], true, 512, none⟩

/-- A 121-byte buffer: jpg magic at block-aligned offset 8, trailer first
occurs ending at offset 115 (candidate span 8-115, 108 bytes). -/
def srcWitC1 : List Byte :=
  List.replicate 8 0 ++ [0xFF, 0xD8, 0xFF, 0xE0] ++
    List.replicate 102 0x41 ++ [0xFF, 0xD9] ++ List.replicate 5 0

/-- Deep-scan session over jpg only, 8-byte blocks, no limits. -/
def cfgWitC1 : Config := ⟨["jpg"], true, 8, none⟩

/-- A 200-byte buffer with a jpg magic at offset 16, past the 8-byte scan
ceiling of `cfgCexC2` but inside the first 64-byte block read. -/
def srcCexC2 : List Byte :=
  List.replicate 16 0 ++ [0xFF, 0xD8, 0xFF, 0xE0] ++ List.replicate 180 0x41

/-- Heuristic session over jpg only, 64-byte blocks, `max_scan_size = 8`. -/
def cfgCexC2 : Config := ⟨["jpg"], false, 64, some 8⟩

/-- A 150-byte buffer of printable filler. -/
def srcWitC3 : List Byte := List.replicate 150 0x41

/-- A 160-byte buffer of printable filler. -/
def srcWitC6 : List Byte := List.replicate 160 0x42

/-- Heuristic session over jpg only, 16-byte blocks, no limits. -/
def cfgWit : Config := ⟨["jpg"], false, 16, none⟩

/-- A 64-byte all-zero buffer. -/
def srcWitC8 : List Byte := List.replicate 64 0

/-! ### Basic facts about `matchAt` and `bytesFind` -/

theorem matchAt_iff {hay needle : List Byte} {i : Nat} :
    matchAt hay needle i = true ↔ (hay.drop i).take needle.length = needle := by
  simp [matchAt]

theorem matchAt_le {hay needle : List Byte} {i : Nat}
    (h : matchAt hay needle i = true) (hne : needle ≠ []) :
    i + needle.length ≤ hay.length := by
  rw [matchAt_iff] at h
  have hlen := congrArg List.length h
  simp [List.length_take, List.length_drop] at hlen
  have hpos : 0 < needle.length := List.length_pos.mpr hne
  omega

theorem matchAt_drop {hay needle : List Byte} {c i : Nat} :
    matchAt (hay.drop c) needle i = matchAt hay needle (c + i) := by
  simp [matchAt, List.drop_drop, Nat.add_comm]

theorem matchAt_take_iff {hay needle : List Byte} {n i : Nat} (hne : needle ≠ []) :
    matchAt (hay.take n) needle i = true ↔
      (matchAt hay needle i = true ∧ i + needle.length ≤ n) := by
  constructor
  · intro h
    have hle := matchAt_le h hne
    simp [List.length_take] at hle
    have hin : i + needle.length ≤ n := by omega
    refine ⟨?_, hin⟩
    rw [matchAt_iff] at h ⊢
    rw [List.drop_take, List.take_take] at h
    rwa [Nat.min_def, if_pos (by omega)] at h
  · rintro ⟨h, hin⟩
    rw [matchAt_iff] at h ⊢
    rw [List.drop_take, List.take_take]
    rwa [Nat.min_def, if_pos (by omega)]

theorem bytesFindGo_eq_some {hay needle : List Byte} :
    ∀ {steps i j : Nat}, bytesFindGo hay needle i steps = some j ↔
      (i ≤ j ∧ j < i + steps ∧ matchAt hay needle j = true ∧
       ∀ m, i ≤ m → m < j → matchAt hay needle m = false) := by
  intro steps
  induction steps with
  | zero => intro i j; simp [bytesFindGo]; omega
  | succ s ih =>
    intro i j
    rw [bytesFindGo]
    cases hm : matchAt hay needle i with
    | true =>
      simp only [if_true, Option.some.injEq]
      constructor
      · rintro rfl
        exact ⟨Nat.le_refl i, by omega, hm, fun m h1 h2 => by omega⟩
      · rintro ⟨h1, _, h3, h4⟩
        rcases Nat.lt_or_ge i j with hij | hij
        · have := h4 i (Nat.le_refl i) hij
          rw [hm] at this; cases this
        · omega
    | false =>
      simp only [Bool.false_eq_true, if_false, ih]
      constructor
      · rintro ⟨h1, h2, h3, h4⟩
        refine ⟨by omega, by omega, h3, fun m hm1 hm2 => ?_⟩
        rcases Nat.eq_or_lt_of_le hm1 with rfl | hlt
        · exact hm
        · exact h4 m hlt hm2
      · rintro ⟨h1, h3, h4, h5⟩
        have hij : i ≠ j := by
          rintro rfl; rw [hm] at h4; cases h4
        exact ⟨by omega, by omega, h4, fun m hm1 hm2 => h5 m (by omega) hm2⟩

theorem bytesFindGo_eq_none {hay needle : List Byte} :
    ∀ {steps i : Nat}, bytesFindGo hay needle i steps = none ↔
      ∀ m, i ≤ m → m < i + steps → matchAt hay needle m = false := by
  intro steps
  induction steps with
  | zero => intro i; simp [bytesFindGo]; omega
  | succ s ih =>
    intro i
    rw [bytesFindGo]
    cases hm : matchAt hay needle i with
    | true =>
      simp only [if_true]
      constructor
      · intro h; cases h
      · intro h
        have := h i (Nat.le_refl i) (by omega)
        rw [hm] at this; cases this
    | false =>
      simp only [Bool.false_eq_true, if_false, ih]
      constructor
      · intro h m h1 h2
        rcases Nat.eq_or_lt_of_le h1 with rfl | hlt
        · exact hm
        · exact h m hlt (by omega)
      · intro h m h1 h2
        exact h m (by omega) (by omega)

theorem bytesFind_eq_some_iff {hay needle : List Byte} {start j : Nat} (hne : needle ≠ []) :
    bytesFind hay needle start = some j ↔
      (start ≤ j ∧ matchAt hay needle j = true ∧
       ∀ m, start ≤ m → m < j → matchAt hay needle m = false) := by
  rw [bytesFind, bytesFindGo_eq_some]
  constructor
  · rintro ⟨h1, _, h3, h4⟩; exact ⟨h1, h3, h4⟩
  · rintro ⟨h1, h3, h4⟩
    have hle := matchAt_le h3 hne
    have hpos : 0 < needle.length := List.length_pos.mpr hne
    exact ⟨h1, by omega, h3, h4⟩

theorem bytesFind_eq_none_iff {hay needle : List Byte} {start : Nat} (hne : needle ≠ []) :
    bytesFind hay needle start = none ↔
      ∀ m, start ≤ m → matchAt hay needle m = false := by
  rw [bytesFind, bytesFindGo_eq_none]
  constructor
  · intro h m h1
    by_cases hr : m < start + (hay.length + 1 - start)
    · exact h m h1 hr
    · cases ht : matchAt hay needle m with
      | false => rfl
      | true =>
        have hle := matchAt_le ht hne
        have hpos : 0 < needle.length := List.length_pos.mpr hne
        omega
  · intro h m h1 _
    exact h m h1

/-! ### Facts about the static format tables -/

theorem lookup_mem {α : Type} {l : List (String × α)} {k : String} {v : α}
    (h : List.lookup k l = some v) : v ∈ l.map Prod.snd := by
  induction l with
  | nil => simp [List.lookup] at h
  | cons a tl ih =>
    rw [List.lookup] at h
    by_cases hk : k == a.1
    · simp [hk] at h
      simp [← h]
    · simp [hk] at h
      simp [ih h]

theorem fileSignatures_ne_nil {t : String} {s : List Byte}
    (h : s ∈ fileSignatures t) : s ≠ [] := by
  unfold fileSignatures at h
  cases hl : List.lookup t FILE_SIGNATURES with
  | none => rw [hl] at h; simp at h
  | some v =>
    rw [hl] at h
    simp at h
    have hv := lookup_mem hl
    have : ∀ v ∈ FILE_SIGNATURES.map Prod.snd, ∀ s ∈ v, s ≠ [] := by decide
    exact this v hv s h

theorem fileSignatures_nodup (t : String) : (fileSignatures t).Nodup := by
  unfold fileSignatures
  cases hl : List.lookup t FILE_SIGNATURES with
  | none => simp
  | some v =>
    have hv := lookup_mem hl
    have : ∀ v ∈ FILE_SIGNATURES.map Prod.snd, v.Nodup := by decide
    simpa using this v hv

theorem fileTrailer_ne_nil {t : String} {tr : List Byte}
    (h : fileTrailer t = some tr) : tr ≠ [] := by
  have hv := lookup_mem h
  have : ∀ v ∈ FILE_TRAILERS.map Prod.snd, v ≠ [] := by decide
  exact this tr hv

theorem maxFileSize_facts (t : String) :
    4096 ∣ maxFileSize t ∧ 16384 ≤ maxFileSize t := by
  unfold maxFileSize
  cases hl : List.lookup t MAX_FILE_SIZES with
  | none => simp; decide
  | some v =>
    have hv := lookup_mem hl
    have : ∀ v ∈ MAX_FILE_SIZES.map Prod.snd, 4096 ∣ v ∧ 16384 ≤ v := by decide
    simpa using this v hv

/-! ### Device bookkeeping -/

theorem read_data (d : Device) (n : Nat) : ((d.read n).2).data = d.data := rfl

theorem read_chunk (d : Device) (n : Nat) :
    (d.read n).1 = (d.data.drop d.cursor).take n := rfl

theorem read_cursor (d : Device) (n : Nat) :
    ((d.read n).2).cursor = d.cursor + ((d.read n).1).length := rfl

theorem seek_data (d : Device) (p : Nat) : (d.seek p).data = d.data := rfl

theorem readUntilTrailerLoop_data (tr : List Byte) (M : Nat) :
    ∀ (fuel : Nat) (dev : Device) (buf : List Byte),
      ((readUntilTrailerLoop tr M fuel dev buf).2).data = dev.data := by
  intro fuel
  induction fuel with
  | zero => intro dev buf; rfl
  | succ f ih =>
    intro dev buf
    simp only [readUntilTrailerLoop]
    split
    · split
      · rfl
      · split
        · rfl
        · rw [ih]; rfl
    · rfl

theorem heuristicLoop_data (ft : String) (M : Nat) :
    ∀ (fuel : Nat) (dev : Device) (buf : List Byte) (v i : Nat),
      ((heuristicLoop ft M fuel dev buf v i).2).data = dev.data := by
  intro fuel
  induction fuel with
  | zero => intro dev buf v i; rfl
  | succ f ih =>
    intro dev buf v i
    simp only [heuristicLoop]
    repeat' split
    all_goals first
    | rfl
    | (rw [ih]; rfl)

theorem readFileHeuristic_data (dev : Device) (ft : String) (M : Nat) :
    ((readFileHeuristic dev ft M).2).data = dev.data := by
  simp only [readFileHeuristic]
  repeat' split
  all_goals first
  | rfl
  | (rw [heuristicLoop_data]; rfl)

theorem extractCandidate_data (cfg : Config) (dev : Device) (ft : String) :
    ((extractCandidate cfg dev ft).2).data = dev.data := by
  rw [extractCandidate]
  split
  · split
    · rw [readUntilTrailer, readUntilTrailerLoop_data]
    · rw [readFileHeuristic_data]
  · rw [readFileHeuristic_data]

theorem recoverFile_device (cfg : Config) (dev : Device) (ft : String) (pos : Nat) :
    ((recoverFile cfg dev ft pos).2) = dev := by
  have hd : ((extractCandidate cfg (dev.seek pos) ft).2).data = dev.data :=
    extractCandidate_data cfg (dev.seek pos) ft
  simp only [recoverFile, Device.tell, Device.seek]
  cases dev with
  | mk data cursor =>
    simp only [Device.seek] at hd
    simp [Device.seek, hd]

theorem handleHit_data (cfg : Config) (dev : Device) (ft : String) (pos : Nat)
    (st : ScanState) : ((handleHit cfg dev ft pos st).2).data = dev.data := by
  simp only [handleHit]
  split
  · rw [recoverFile_device]; rfl
  · rw [recoverFile_device]; rfl

theorem sigStep_data (cfg : Config) (data : List Byte) (position : Nat) (ft : String)
    (acc : ScanState × Device) (s : List Byte) :
    ((sigStep cfg data position ft acc s).2).data = acc.2.data := by
  simp only [sigStep]
  split
  · rw [Device.seek]
    exact handleHit_data cfg acc.2 ft _ acc.1
  · rfl

theorem foldSigs_data (cfg : Config) (data : List Byte) (position : Nat) (ft : String) :
    ∀ (sigs : List (List Byte)) (acc : ScanState × Device),
      ((sigs.foldl (sigStep cfg data position ft) acc).2).data = acc.2.data := by
  intro sigs
  induction sigs with
  | nil => intro acc; rfl
  | cons s tl ih =>
    intro acc
    rw [List.foldl_cons, ih, sigStep_data]

theorem chunk_length_le (d : Device) (n : Nat) :
    ((d.read n).1).length ≤ d.data.length - d.cursor := by
  simp [Device.read, List.length_take, List.length_drop]

theorem chunk_length_le_n (d : Device) (n : Nat) : ((d.read n).1).length ≤ n := by
  simp [Device.read, List.length_take]

theorem chunk_length_eq (d : Device) (n : Nat) :
    ((d.read n).1).length = min n (d.data.length - d.cursor) := by
  rw [read_chunk]
  simp [List.length_take, List.length_drop]

theorem chunk_isEmpty_false (d : Device) (n : Nat) (h : (d.read n).1.isEmpty = false) :
    d.cursor < d.data.length ∧ 0 < n := by
  have hl : ((d.read n).1).length ≠ 0 := by
    intro h0
    rw [List.isEmpty_eq_true.mpr (List.length_eq_zero.mp h0)] at h
    cases h
  rw [chunk_length_eq] at hl
  omega

theorem chunk_short_cursor (d : Device) (n : Nat)
    (hne : (d.read n).1.isEmpty = false) (hsh : ((d.read n).1).length < n) :
    d.data.length ≤ ((d.read n).2).cursor := by
  have h1 := chunk_isEmpty_false d n hne
  have h2 := chunk_length_eq d n
  rw [read_cursor]
  omega

/-! ### Length bounds on extraction -/

theorem length_take_le_length {α : Type} (n : Nat) (l : List α) :
    (l.take n).length ≤ l.length := by
  simp [List.length_take]

theorem readUntilTrailerLoop_length_le (tr : List Byte) (M : Nat) :
    ∀ (fuel : Nat) (dev : Device) (buf d : List Byte),
      (readUntilTrailerLoop tr M fuel dev buf).1 = some d →
      d.length ≤ buf.length + (dev.data.length - dev.cursor) := by
  intro fuel
  induction fuel with
  | zero =>
    intro dev buf d h
    rw [readUntilTrailerLoop] at h
    dsimp only at h
    split at h
    · cases h; omega
    · cases h
  | succ f ih =>
    intro dev buf d h
    rw [readUntilTrailerLoop] at h
    simp only at h
    have hc := chunk_length_le dev 4096
    split at h
    · split at h
      · split at h
        · cases h; omega
        · cases h
      · split at h
        · cases h
          refine le_trans (length_take_le_length _ _) ?_
          simp only [List.length_append]
          omega
        · have hr := ih (dev.read 4096).2 (buf ++ (dev.read 4096).1) d h
          rw [read_data, read_cursor] at hr
          simp only [List.length_append] at hr
          omega
    · split at h
      · cases h; omega
      · cases h

theorem heuristicLoop_length_le (ft : String) (M : Nat) :
    ∀ (fuel : Nat) (dev : Device) (buf : List Byte) (v i : Nat) (d : List Byte),
      (heuristicLoop ft M fuel dev buf v i).1 = some d →
      d.length ≤ buf.length + (dev.data.length - dev.cursor) := by
  intro fuel
  induction fuel with
  | zero =>
    intro dev buf v i d h
    rw [heuristicLoop] at h
    cases h; omega
  | succ f ih =>
    intro dev buf v i d h
    rw [heuristicLoop] at h
    simp only at h
    have hc := chunk_length_le dev 4096
    repeat' split at h
    all_goals
      first
      | (cases h; omega)
      | (cases h
         refine le_trans (length_take_le_length _ _) ?_
         simp only [List.length_append]
         omega)
      | (have hr := ih (dev.read 4096).2 (buf ++ (dev.read 4096).1) _ _ d h
         rw [read_data, read_cursor] at hr
         simp only [List.length_append] at hr
         omega)

theorem readFileHeuristic_length_le (dev : Device) (ft : String) (M : Nat)
    (d : List Byte) (h : (readFileHeuristic dev ft M).1 = some d) :
    d.length ≤ dev.data.length - dev.cursor := by
  simp only [readFileHeuristic] at h
  have hinit : ∀ n, ((dev.read n).1).length + (dev.data.length - ((dev.read n).2).cursor)
      ≤ dev.data.length - dev.cursor := by
    intro n
    have h1 := chunk_length_le dev n
    rw [read_cursor]
    omega
  repeat' split at h
  all_goals
    first
    | cases h
    | (have hr := heuristicLoop_length_le ft M (dev.data.length + 1) _ _ 0 0 d h
       rw [read_data] at hr
       have h2a := hinit 16384
       have h2b := hinit 4096
       omega)

theorem readUntilTrailer_length_le (dev : Device) (tr : List Byte) (M : Nat)
    (d : List Byte) (h : (readUntilTrailer dev tr M).1 = some d) :
    d.length ≤ dev.data.length - dev.cursor := by
  have := readUntilTrailerLoop_length_le tr M (dev.data.length + 1) dev [] d h
  simpa using this

theorem extractCandidate_length_le (cfg : Config) (dev : Device) (ft : String)
    (d : List Byte) (h : (extractCandidate cfg dev ft).1 = some d) :
    d.length ≤ dev.data.length - dev.cursor := by
  rw [extractCandidate] at h
  split at h
  · split at h
    · exact readUntilTrailer_length_le dev _ _ d h
    · exact readFileHeuristic_length_le dev ft _ d h
  · exact readFileHeuristic_length_le dev ft _ d h

/-! ### The extraction result never exceeds the maximum size when the
chunk size divides the maximum (true of every entry of MAX_FILE_SIZES and
of the 10 MiB default) -/

theorem dvd_step {a M : Nat} (hM : 4096 ∣ M) (ha : 4096 ∣ a) (h : a < M) :
    a + 4096 ≤ M := by
  have hd : 4096 ∣ M - a := Nat.dvd_sub' hM ha
  have hpos : 0 < M - a := by omega
  have := Nat.le_of_dvd hpos hd
  omega

theorem readUntilTrailerLoop_le_max (tr : List Byte) (M : Nat) (hM : 4096 ∣ M) :
    ∀ (fuel : Nat) (dev : Device) (buf d : List Byte),
      buf.length ≤ M → (4096 ∣ buf.length ∨ dev.data.length ≤ dev.cursor) →
      (readUntilTrailerLoop tr M fuel dev buf).1 = some d → d.length ≤ M := by
  intro fuel
  induction fuel with
  | zero =>
    intro dev buf d hbuf hinv h
    rw [readUntilTrailerLoop] at h
    dsimp only at h
    split at h
    · cases h; omega
    · cases h
  | succ f ih =>
    intro dev buf d hbuf hinv h
    rw [readUntilTrailerLoop] at h
    simp only at h
    have hck := chunk_length_le_n dev 4096
    cases hch : (dev.read 4096).1.isEmpty with
    | true =>
      rw [hch] at h
      simp only [if_true] at h
      split at h
      · split at h
        · cases h; omega
        · cases h
      · split at h
        · cases h; omega
        · cases h
    | false =>
      have hfacts := chunk_isEmpty_false dev 4096 hch
      have hdvd : 4096 ∣ buf.length := by
        rcases hinv with hl | hr
        · exact hl
        · omega
      rw [hch] at h
      simp only [Bool.false_eq_true, if_false] at h
      split at h
      · rename_i hguard
        have hstep : buf.length + 4096 ≤ M := dvd_step hM hdvd hguard
        split at h
        · cases h
          refine le_trans (length_take_le_length _ _) ?_
          simp only [List.length_append]
          omega
        · refine ih (dev.read 4096).2 (buf ++ (dev.read 4096).1) d ?_ ?_ h
          · simp only [List.length_append]; omega
          · rcases Nat.lt_or_ge ((dev.read 4096).1).length 4096 with hlt | hge
            · right
              rw [read_data]
              exact chunk_short_cursor dev 4096 hch hlt
            · left
              have heq : ((dev.read 4096).1).length = 4096 := by omega
              simp only [List.length_append, heq]
              exact Nat.dvd_add hdvd ⟨1, rfl⟩
      · split at h
        · cases h; omega
        · cases h

theorem heuristicLoop_le_max (ft : String) (M : Nat) (hM : 4096 ∣ M) :
    ∀ (fuel : Nat) (dev : Device) (buf : List Byte) (v i : Nat) (d : List Byte),
      buf.length ≤ M → (4096 ∣ buf.length ∨ dev.data.length ≤ dev.cursor) →
      (heuristicLoop ft M fuel dev buf v i).1 = some d → d.length ≤ M := by
  intro fuel
  induction fuel with
  | zero =>
    intro dev buf v i d hbuf hinv h
    rw [heuristicLoop] at h
    cases h; omega
  | succ f ih =>
    intro dev buf v i d hbuf hinv h
    rw [heuristicLoop] at h
    simp only at h
    have hck := chunk_length_le_n dev 4096
    cases hch : (dev.read 4096).1.isEmpty with
    | true =>
      rw [hch] at h
      simp only [if_true] at h
      split at h
      · cases h; omega
      · cases h; omega
    | false =>
      have hfacts := chunk_isEmpty_false dev 4096 hch
      have hdvd : 4096 ∣ buf.length := by
        rcases hinv with hl | hr
        · exact hl
        · omega
      rw [hch] at h
      simp only [Bool.false_eq_true, if_false] at h
      split at h
      · rename_i hguard
        have hstep : buf.length + 4096 ≤ M := dvd_step hM hdvd hguard
        have hnext : (4096 ∣ (buf ++ (dev.read 4096).1).length ∨
            ((dev.read 4096).2).data.length ≤ ((dev.read 4096).2).cursor) := by
          rcases Nat.lt_or_ge ((dev.read 4096).1).length 4096 with hlt | hge
          · right
            rw [read_data]
            exact chunk_short_cursor dev 4096 hch hlt
          · left
            have : ((dev.read 4096).1).length = 4096 := by omega
            simp only [List.length_append, this]
            exact Nat.dvd_add hdvd ⟨1, rfl⟩
        repeat' split at h
        all_goals
          first
          | (cases h
             refine le_trans (length_take_le_length _ _) ?_
             simp only [List.length_append]
             omega)
          | (refine ih (dev.read 4096).2 (buf ++ (dev.read 4096).1) _ _ d ?_ ?_ h
             · simp only [List.length_append]; omega
             · exact hnext)
      · cases h; omega

theorem readFileHeuristic_le_max (dev : Device) (ft : String) (M : Nat)
    (hM : 4096 ∣ M) (hM16 : 16384 ≤ M) (d : List Byte)
    (h : (readFileHeuristic dev ft M).1 = some d) : d.length ≤ M := by
  simp only [readFileHeuristic] at h
  have hloop : ∀ n, 4096 ∣ n → n ≤ M →
      (heuristicLoop ft M (dev.data.length + 1) ((dev.read n).2) ((dev.read n).1) 0 0).1
        = some d →
      (dev.read n).1.isEmpty = false → d.length ≤ M := by
    intro n hn hnM hl hch
    have hck := chunk_length_le_n dev n
    refine heuristicLoop_le_max ft M hM _ _ _ 0 0 d ?_ ?_ hl
    · omega
    · rcases Nat.lt_or_ge ((dev.read n).1).length n with hlt | hge
      · right
        rw [read_data]
        exact chunk_short_cursor dev n hch hlt
      · left
        have : ((dev.read n).1).length = n := by omega
        rw [this]
        exact hn
  by_cases hft : ft ∈ containerTypes
  · simp only [if_pos hft] at h
    cases hch : (dev.read 16384).1.isEmpty with
    | true =>
      rw [hch] at h
      simp only [if_true] at h
      cases h
    | false =>
      rw [hch] at h
      simp only [Bool.false_eq_true, if_false] at h
      repeat' split at h
      all_goals first
      | cases h
      | exact hloop 16384 (by decide) hM16 h hch
  · simp only [if_neg hft] at h
    cases hch : (dev.read 4096).1.isEmpty with
    | true =>
      rw [hch] at h
      simp only [if_true] at h
      cases h
    | false =>
      rw [hch] at h
      simp only [Bool.false_eq_true, if_false] at h
      repeat' split at h
      all_goals first
      | cases h
      | exact hloop 4096 (by decide) (by omega) h hch

theorem readUntilTrailer_le_max (dev : Device) (tr : List Byte) (M : Nat)
    (hM : 4096 ∣ M) (d : List Byte)
    (h : (readUntilTrailer dev tr M).1 = some d) : d.length ≤ M := by
  refine readUntilTrailerLoop_le_max tr M hM (dev.data.length + 1) dev [] d ?_ ?_ h
  · simp
  · left; simp

theorem extractCandidate_le_max (cfg : Config) (dev : Device) (ft : String)
    (d : List Byte) (h : (extractCandidate cfg dev ft).1 = some d) :
    d.length ≤ maxFileSize ft := by
  have hfacts := maxFileSize_facts ft
  rw [extractCandidate] at h
  split at h
  · split at h
    · exact readUntilTrailer_le_max dev _ _ hfacts.1 d h
    · exact readFileHeuristic_le_max dev ft _ hfacts.1 hfacts.2 d h
  · exact readFileHeuristic_le_max dev ft _ hfacts.1 hfacts.2 d h

/-! ### Exact characterization of trailer-bounded extraction: starting at a
cursor whose suffix has its first trailer occurrence ending at relative
offset `p + |tr|`, deep-scan extraction returns exactly that prefix. -/

theorem take_min_length {α : Type} (l : List α) (m : Nat) :
    l.take (min m l.length) = l.take m := by
  rcases Nat.le_total m l.length with h | h
  · rw [Nat.min_eq_left h]
  · rw [Nat.min_eq_right h, List.take_length, List.take_of_length_le h]

theorem readUntilTrailerLoop_exact (tr : List Byte) (M : Nat) (hne : tr ≠ [])
    (src : List Byte) (c p : Nat)
    (hp : bytesFind (src.drop c) tr 0 = some p)
    (hM : p + tr.length ≤ M) :
    ∀ (fuel : Nat) (n : Nat) (dev : Device), dev.data = src → dev.cursor = c + n →
      n < p + tr.length → p + tr.length ≤ n + fuel →
      (readUntilTrailerLoop tr M fuel dev ((src.drop c).take n)).1 =
        some ((src.drop c).take (p + tr.length)) := by
  have hfind := (bytesFind_eq_some_iff hne).mp hp
  obtain ⟨-, hmatch, hmin⟩ := hfind
  have hplen : p + tr.length ≤ (src.drop c).length := matchAt_le hmatch hne
  rw [List.length_drop] at hplen
  have htrpos : 0 < tr.length := List.length_pos.mpr hne
  intro fuel
  induction fuel with
  | zero =>
    intro n dev hdata hcur hlt hle
    omega
  | succ f ih =>
    intro n dev hdata hcur hlt hle
    have hguard : ((src.drop c).take n).length < M := by
      simp only [List.length_take, List.length_drop]
      omega
    have hchunk : (dev.read 4096).1 = ((src.drop c).drop n).take 4096 := by
      rw [read_chunk, hdata, hcur]
      simp [List.drop_drop, Nat.add_comm]
    set k := ((dev.read 4096).1).length with hkdef
    have hkval : k = min 4096 (src.length - c - n) := by
      rw [hkdef, hchunk]
      simp only [List.length_take, List.length_drop]
    have hk1 : 0 < k := by
      rw [hkval]
      omega
    have hch : (dev.read 4096).1.isEmpty = false := by
      cases he : (dev.read 4096).1.isEmpty with
      | false => rfl
      | true =>
        rw [List.isEmpty_eq_true] at he
        have hk0 : k = 0 := by rw [hkdef, he]; rfl
        have : False := by omega
        exact this.elim
    have hknS : n + k ≤ src.length - c := by
      rw [hkval]
      omega
    have hb2 : (src.drop c).take n ++ (dev.read 4096).1 = (src.drop c).take (n + k) := by
      rw [List.take_add, hchunk, hkdef, hchunk]
      have hmin4096 : (((src.drop c).drop n).take 4096).length =
          min 4096 ((src.drop c).drop n).length := by
        simp [List.length_take]
      rw [hmin4096, take_min_length]
    have hlen2 : ((src.drop c).take (n + k)).length = n + k := by
      simp only [List.length_take, List.length_drop]
      omega
    rw [readUntilTrailerLoop]
    simp only
    rw [if_pos hguard, hb2]
    rw [if_neg (by simp [hch])]
    rw [hlen2]
    rcases Nat.lt_or_ge (n + k) (p + tr.length) with hcase | hcase
    · have hfnd : bytesFind ((src.drop c).take (n + k)) tr (n + k - (tr.length + 4096))
          = none := by
        rw [bytesFind_eq_none_iff hne]
        intro m hm
        cases hmt : matchAt ((src.drop c).take (n + k)) tr m with
        | false => rfl
        | true =>
          rw [matchAt_take_iff hne] at hmt
          have hmp : m < p := by omega
          have := hmin m (Nat.zero_le m) hmp
          rw [this] at hmt
          simp at hmt
      rw [hfnd]
      simp only [Option.isSome_none, Bool.false_eq_true, if_false]
      refine ih (n + k) (dev.read 4096).2 ?_ ?_ hcase ?_
      · rw [read_data, hdata]
      · rw [read_cursor, hcur, ← hkdef]
        omega
      · omega
    · have hfnd : bytesFind ((src.drop c).take (n + k)) tr (n + k - (tr.length + 4096))
          = some p := by
        rw [bytesFind_eq_some_iff hne]
        have hkle : k ≤ 4096 := by rw [hkval]; omega
        refine ⟨by omega, ?_, ?_⟩
        · rw [matchAt_take_iff hne]
          exact ⟨hmatch, by omega⟩
        · intro m hm1 hm2
          cases hmt : matchAt ((src.drop c).take (n + k)) tr m with
          | false => rfl
          | true =>
            rw [matchAt_take_iff hne] at hmt
            have := hmin m (Nat.zero_le m) hm2
            rw [this] at hmt
            simp at hmt
      rw [hfnd]
      simp only [Option.isSome_some, if_true, Option.getD_some]
      rw [List.take_take, Nat.min_eq_left hcase]

theorem readUntilTrailer_exact (dev : Device) (tr : List Byte) (M : Nat)
    (hne : tr ≠ []) (p : Nat)
    (hp : bytesFind (dev.data.drop dev.cursor) tr 0 = some p)
    (hM : p + tr.length ≤ M) :
    (readUntilTrailer dev tr M).1 =
      some ((dev.data.drop dev.cursor).take (p + tr.length)) := by
  have hfind := (bytesFind_eq_some_iff hne).mp hp
  obtain ⟨-, hmatch, -⟩ := hfind
  have hplen : p + tr.length ≤ (dev.data.drop dev.cursor).length := matchAt_le hmatch hne
  have htrpos : 0 < tr.length := List.length_pos.mpr hne
  have := readUntilTrailerLoop_exact tr M hne dev.data dev.cursor p hp hM
    (dev.data.length + 1) 0 dev rfl (by omega) (by omega)
    (by simp only [List.length_drop] at hplen; omega)
  simpa using this

/-! ### Facts about `recoverFile` and `handleHit` -/

theorem recoverFile_fst (cfg : Config) (dev : Device) (ft : String) (pos : Nat) :
    (recoverFile cfg dev ft pos).1 =
      match (extractCandidate cfg (dev.seek pos) ft).1 with
      | none => none
      | some d =>
        if d.length < 100 then none
        else if validateFileContent d ft then some ⟨ft, pos, d⟩
        else none := rfl

theorem recoverFile_some_iff (cfg : Config) (dev : Device) (ft : String) (pos : Nat)
    (r : FileRecord) (h : (recoverFile cfg dev ft pos).1 = some r) :
    (extractCandidate cfg (dev.seek pos) ft).1 = some r.data ∧
      100 ≤ r.data.length ∧ validateFileContent r.data ft = true ∧
      r.fileType = ft ∧ r.startPosition = pos := by
  rw [recoverFile_fst] at h
  cases hext : (extractCandidate cfg (dev.seek pos) ft).1 with
  | none => rw [hext] at h; cases h
  | some d =>
    rw [hext] at h
    dsimp only at h
    split at h
    · cases h
    · split at h
      · cases h
        rename_i h100 hval
        refine ⟨by simp [hext], ?_, by simpa using hval, rfl, rfl⟩
        simp only
        omega
      · cases h

theorem recoverFile_none_of_short (cfg : Config) (dev : Device) (ft : String)
    (pos : Nat) (h : dev.data.length < pos + 100) :
    (recoverFile cfg dev ft pos).1 = none := by
  rw [recoverFile_fst]
  cases hext : (extractCandidate cfg (dev.seek pos) ft).1 with
  | none => rfl
  | some d =>
    have hlen := extractCandidate_length_le cfg (dev.seek pos) ft d hext
    rw [seek_data] at hlen
    simp only [Device.seek] at hlen
    dsimp only
    rw [if_pos (by omega)]

theorem recoverFile_deepScan_exact (cfg : Config) (dev : Device) (ft : String)
    (pos : Nat) (tr : List Byte) (p : Nat)
    (hds : cfg.deepScan = true) (htr : fileTrailer ft = some tr)
    (hfind : bytesFind (dev.data.drop pos) tr 0 = some p)
    (h100 : 100 ≤ p + tr.length)
    (hmax : p + tr.length ≤ maxFileSize ft)
    (hval : validateFileContent ((dev.data.drop pos).take (p + tr.length)) ft = true) :
    (recoverFile cfg dev ft pos).1 =
      some ⟨ft, pos, (dev.data.drop pos).take (p + tr.length)⟩ := by
  have hne : tr ≠ [] := fileTrailer_ne_nil htr
  have hmatch := ((bytesFind_eq_some_iff hne).mp hfind).2.1
  have hplen : p + tr.length ≤ (dev.data.drop pos).length := matchAt_le hmatch hne
  have hext : (extractCandidate cfg (dev.seek pos) ft).1 =
      some ((dev.data.drop pos).take (p + tr.length)) := by
    rw [extractCandidate, htr]
    dsimp only
    rw [if_pos hds]
    have := readUntilTrailer_exact (dev.seek pos) tr (maxFileSize ft) hne p
      (by simpa [Device.seek] using hfind) hmax
    simpa [Device.seek] using this
  rw [recoverFile_fst, hext]
  dsimp only
  have hdl : ((dev.data.drop pos).take (p + tr.length)).length = p + tr.length := by
    simp only [List.length_take]
    omega
  rw [if_neg (by omega), if_pos hval]

theorem handleHit_fst_none (cfg : Config) (dev : Device) (ft : String) (pos : Nat)
    (st : ScanState) (h : (recoverFile cfg (dev.seek pos) ft pos).1 = none) :
    handleHit cfg dev ft pos st =
      ({ st with hitsLog := st.hitsLog ++ [(ft, pos)]
                 falsePositives := st.falsePositives + 1 }, dev.seek pos) := by
  rw [handleHit]
  dsimp only
  rw [h]
  rw [recoverFile_device]

theorem handleHit_fst_some (cfg : Config) (dev : Device) (ft : String) (pos : Nat)
    (st : ScanState) (rec : FileRecord)
    (h : (recoverFile cfg (dev.seek pos) ft pos).1 = some rec) :
    handleHit cfg dev ft pos st =
      ({ st with hitsLog := st.hitsLog ++ [(ft, pos)]
                 totalFilesRecovered := st.totalFilesRecovered + 1
                 recoveredByType := dictIncr st.recoveredByType ft
                 recoveredFiles := st.recoveredFiles ++ [rec] }, dev.seek pos) := by
  rw [handleHit]
  dsimp only
  rw [h]
  rw [recoverFile_device]

theorem handleHit_short (cfg : Config) (dev : Device) (ft : String) (pos : Nat)
    (st : ScanState) (h : dev.data.length < pos + 100) :
    handleHit cfg dev ft pos st =
      ({ st with hitsLog := st.hitsLog ++ [(ft, pos)]
                 falsePositives := st.falsePositives + 1 }, dev.seek pos) := by
  refine handleHit_fst_none cfg dev ft pos st ?_
  refine recoverFile_none_of_short cfg (dev.seek pos) ft pos ?_
  rw [seek_data]
  exact h

theorem processBlock_data (cfg : Config) (data : List Byte) (position : Nat)
    (dev : Device) (st : ScanState) :
    ((processBlock cfg data position dev st).2).data = dev.data := by
  rw [processBlock]
  have : ∀ (l : List String) (acc : ScanState × Device),
      ((l.foldl (fun acc ft => (fileSignatures ft).foldl (sigStep cfg data position ft) acc)
        acc).2).data = acc.2.data := by
    intro l
    induction l with
    | nil => intro acc; rfl
    | cons t tl ih => intro acc; rw [List.foldl_cons, ih, foldSigs_data]
  exact this cfg.fileTypes (st, dev)

/-! ### Per-block fold lemmas -/

theorem foldSigs_none (cfg : Config) (data : List Byte) (position : Nat) (ft : String) :
    ∀ (sigs : List (List Byte)) (acc : ScanState × Device),
      (∀ s ∈ sigs, bytesFind data s 0 = none) →
      sigs.foldl (sigStep cfg data position ft) acc = acc := by
  intro sigs
  induction sigs with
  | nil => intro acc _; rfl
  | cons s tl ih =>
    intro acc hnone
    rw [List.foldl_cons]
    have hs : bytesFind data s 0 = none := hnone s (List.mem_cons_self s tl)
    rw [sigStep, hs]
    exact ih acc (fun x hx => hnone x (List.mem_cons_of_mem s hx))

theorem processBlock_none (cfg : Config) (data : List Byte) (position : Nat)
    (dev : Device) (st : ScanState)
    (h : ∀ t ∈ cfg.fileTypes, ∀ s ∈ fileSignatures t, bytesFind data s 0 = none) :
    processBlock cfg data position dev st = (st, dev) := by
  rw [processBlock]
  have hgen : ∀ (l : List String), (∀ t ∈ l, ∀ s ∈ fileSignatures t, bytesFind data s 0 = none) →
      ∀ (acc : ScanState × Device),
      (l.foldl (fun acc ft => (fileSignatures ft).foldl (sigStep cfg data position ft) acc)
        acc) = acc := by
    intro l
    induction l with
    | nil => intro _ acc; rfl
    | cons t tl ih =>
      intro hl acc
      rw [List.foldl_cons]
      rw [foldSigs_none cfg data position t _ acc (hl t (List.mem_cons_self t tl))]
      exact ih (fun x hx => hl x (List.mem_cons_of_mem t hx)) acc
  exact hgen cfg.fileTypes h (st, dev)

theorem foldSigs_unique (cfg : Config) (data : List Byte) (position : Nat) (ft : String)
    (sigX : List Byte) (j : Nat) :
    ∀ (sigs : List (List Byte)), sigs.Nodup → sigX ∈ sigs →
      (∀ s ∈ sigs, s ≠ sigX → bytesFind data s 0 = none) →
      bytesFind data sigX 0 = some j →
      ∀ (acc : ScanState × Device),
        sigs.foldl (sigStep cfg data position ft) acc =
          ((handleHit cfg acc.2 ft (position + j) acc.1).1,
           ((handleHit cfg acc.2 ft (position + j) acc.1).2).seek
             (position + cfg.blockSize)) := by
  intro sigs
  induction sigs with
  | nil => intro _ hmem; cases hmem
  | cons s tl ih =>
    intro hnd hmem hothers hfind acc
    rw [List.foldl_cons]
    by_cases hsx : s = sigX
    · subst hsx
      have htl : ∀ x ∈ tl, bytesFind data x 0 = none := by
        intro x hx
        refine hothers x (List.mem_cons_of_mem s hx) ?_
        intro hxs
        subst hxs
        exact (List.nodup_cons.mp hnd).1 hx
      rw [sigStep, hfind]
      exact foldSigs_none cfg data position ft tl _ htl
    · have hs : bytesFind data s 0 = none :=
        hothers s (List.mem_cons_self s tl) hsx
      rw [sigStep, hs]
      have hmem2 : sigX ∈ tl := by
        cases List.mem_cons.mp hmem with
        | inl h => exact absurd h.symm hsx
        | inr h => exact h
      exact ih (List.nodup_cons.mp hnd).2 hmem2
        (fun x hx hne => hothers x (List.mem_cons_of_mem s hx) hne) hfind acc

theorem processBlock_single (cfg : Config) (data : List Byte) (position : Nat)
    (tag : String) (sig : List Byte) (j : Nat)
    (hft : cfg.fileTypes = [tag]) (hsig : sig ∈ fileSignatures tag)
    (hothers : ∀ s ∈ fileSignatures tag, s ≠ sig → bytesFind data s 0 = none)
    (hfind : bytesFind data sig 0 = some j)
    (dev : Device) (st : ScanState) :
    processBlock cfg data position dev st =
      ((handleHit cfg dev tag (position + j) st).1,
       ((handleHit cfg dev tag (position + j) st).2).seek
         (position + cfg.blockSize)) := by
  rw [processBlock, hft]
  simp only [List.foldl_cons, List.foldl_nil]
  exact foldSigs_unique cfg data position tag sig j (fileSignatures tag)
    (fileSignatures_nodup tag) hsig hothers hfind (st, dev)

/-! ### Scanning a region containing no signature occurrence -/

theorem auditEq_refl (a : ScanState) : auditEq a a :=
  ⟨rfl, rfl, rfl, rfl, rfl⟩

theorem auditEq_trans {a b c : ScanState} (h1 : auditEq a b) (h2 : auditEq b c) :
    auditEq a c := by
  obtain ⟨x1, x2, x3, x4, x5⟩ := h1
  obtain ⟨y1, y2, y3, y4, y5⟩ := h2
  exact ⟨x1.trans y1, x2.trans y2, x3.trans y3, x4.trans y4, x5.trans y5⟩

theorem auditEq_bytesScanned (st : ScanState) (n : Nat) :
    auditEq { st with bytesScanned := n } st :=
  ⟨rfl, rfl, rfl, rfl, rfl⟩

theorem matchAt_block {src : List Byte} {pos bs : Nat} {s : List Byte} {m : Nat}
    (hne : s ≠ []) (h : matchAt ((src.drop pos).take bs) s m = true) :
    matchAt src s (pos + m) = true ∧ m + s.length ≤ bs := by
  rw [matchAt_take_iff hne] at h
  exact ⟨by rw [← matchAt_drop]; exact h.1, h.2⟩

theorem bytesFind_block_none (src : List Byte) (pos bs : Nat) (s : List Byte)
    (hne : s ≠ []) (h : ∀ i, pos ≤ i → matchAt src s i = false) :
    bytesFind ((src.drop pos).take bs) s 0 = none := by
  rw [bytesFind_eq_none_iff hne]
  intro m _
  cases hmt : matchAt ((src.drop pos).take bs) s m with
  | false => rfl
  | true =>
    have hb := matchAt_block hne hmt
    have := h (pos + m) (Nat.le_add_right pos m)
    rw [this] at hb
    cases hb.1

theorem scanLoop_no_hits (cfg : Config) (src : List Byte) (dsize : Nat) :
    ∀ (fuel iter pos : Nat) (dev : Device) (st : ScanState),
      dev.data = src →
      (∀ t ∈ cfg.fileTypes, ∀ s ∈ fileSignatures t, ∀ i, pos ≤ i → matchAt src s i = false) →
      auditEq (scanLoop cfg (fun _ => false) dsize fuel iter pos dev st).1 st := by
  intro fuel
  induction fuel with
  | zero =>
    intro iter pos dev st _ _
    exact auditEq_refl st
  | succ f ih =>
    intro iter pos dev st hdata hno
    rw [scanLoop]
    simp only [Bool.false_eq_true, if_false]
    split
    · have hdata2 : ((dev.seek pos).read cfg.blockSize).1 =
          (src.drop pos).take cfg.blockSize := by
        rw [read_chunk]
        simp [Device.seek, hdata]
      split
      · exact auditEq_refl st
      · rw [hdata2]
        rw [processBlock_none cfg _ pos _ _ ?_]
        · refine auditEq_trans (ih (iter + 1) (pos + cfg.blockSize) _ _ ?_ ?_)
            (auditEq_bytesScanned st _)
          · rw [read_data, seek_data, hdata]
          · intro t ht s hs i hi
            exact hno t ht s hs i (by omega)
        · intro t ht s hs
          exact bytesFind_block_none src pos cfg.blockSize s
            (fileSignatures_ne_nil hs) (fun i hi => hno t ht s hs i hi)
    · exact auditEq_refl st

/-! ### A scan over a source whose only signature occurrence is a single
aligned deep-scan hit recovers exactly that candidate -/

theorem scanLoop_one_hit (cfg : Config) (src : List Byte) (tag : String)
    (sig tr : List Byte) (X p : Nat)
    (hft : cfg.fileTypes = [tag])
    (hbs : 0 < cfg.blockSize)
    (hds : cfg.deepScan = true)
    (htr : fileTrailer tag = some tr)
    (hsig : sig ∈ fileSignatures tag)
    (hocc : matchAt src sig X = true)
    (huniq : ∀ s ∈ fileSignatures tag, ∀ i, matchAt src s i = true → s = sig ∧ i = X)
    (halign : X % cfg.blockSize + sig.length ≤ cfg.blockSize)
    (hfind : bytesFind (src.drop X) tr 0 = some p)
    (h100 : 100 ≤ p + tr.length)
    (hmax : p + tr.length ≤ maxFileSize tag)
    (hval : validateFileContent ((src.drop X).take (p + tr.length)) tag = true) :
    ∀ (fuel k iter : Nat) (dev : Device) (st : ScanState),
      dev.data = src →
      k ≤ X / cfg.blockSize →
      src.length < fuel + cfg.blockSize * k →
      auditEq (scanLoop cfg (fun _ => false) src.length fuel iter
          (cfg.blockSize * k) dev st).1
        { st with recoveredFiles :=
                    st.recoveredFiles ++ [⟨tag, X, (src.drop X).take (p + tr.length)⟩]
                  totalFilesRecovered := st.totalFilesRecovered + 1
                  recoveredByType := dictIncr st.recoveredByType tag
                  hitsLog := st.hitsLog ++ [(tag, X)] } := by
  have hsne : sig ≠ [] := fileSignatures_ne_nil hsig
  have hsigpos : 0 < sig.length := List.length_pos.mpr hsne
  have hXsig : X + sig.length ≤ src.length := matchAt_le hocc hsne
  have hXlen : X < src.length := by omega
  have hqstar : cfg.blockSize * (X / cfg.blockSize) + X % cfg.blockSize = X :=
    Nat.div_add_mod X cfg.blockSize
  have hmod : X % cfg.blockSize < cfg.blockSize := Nat.mod_lt X hbs
  intro fuel
  induction fuel with
  | zero =>
    intro k iter dev st hdata hk hfuel
    have h1 : cfg.blockSize * k ≤ cfg.blockSize * (X / cfg.blockSize) :=
      Nat.mul_le_mul_left cfg.blockSize hk
    omega
  | succ f ih =>
    intro k iter dev st hdata hk hfuel
    have hqle : cfg.blockSize * k ≤ X := by
      have h1 : cfg.blockSize * k ≤ cfg.blockSize * (X / cfg.blockSize) :=
        Nat.mul_le_mul_left cfg.blockSize hk
      omega
    rw [scanLoop]
    simp only [Bool.false_eq_true, if_false]
    rw [if_pos (by omega)]
    have hdata2 : ((dev.seek (cfg.blockSize * k)).read cfg.blockSize).1 =
        (src.drop (cfg.blockSize * k)).take cfg.blockSize := by
      rw [read_chunk]
      simp [Device.seek, hdata]
    have hne2 : ((dev.seek (cfg.blockSize * k)).read cfg.blockSize).1.isEmpty = false := by
      rw [hdata2]
      cases he : ((src.drop (cfg.blockSize * k)).take cfg.blockSize).isEmpty with
      | false => rfl
      | true =>
        rw [List.isEmpty_eq_true, ← List.length_eq_zero] at he
        rw [List.length_take, List.length_drop] at he
        have : False := by omega
        exact this.elim
    rw [if_neg (by simp [hne2])]
    rcases Nat.lt_or_ge k (X / cfg.blockSize) with hklt | hkge
    · -- before the hit block: no occurrence inside this block
      have hnone : ∀ t ∈ cfg.fileTypes, ∀ s ∈ fileSignatures t,
          bytesFind ((src.drop (cfg.blockSize * k)).take cfg.blockSize) s 0 = none := by
        intro t ht s hs
        rw [hft] at ht
        have ht2 : t = tag := by simpa using ht
        subst ht2
        rw [bytesFind_eq_none_iff (fileSignatures_ne_nil hs)]
        intro m _
        cases hmt : matchAt ((src.drop (cfg.blockSize * k)).take cfg.blockSize) s m with
        | false => rfl
        | true =>
          have hb := matchAt_block (fileSignatures_ne_nil hs) hmt
          have hu := huniq s hs (cfg.blockSize * k + m) hb.1
          have hqbs : cfg.blockSize * k + cfg.blockSize ≤ X := by
            have h1 : cfg.blockSize * (k + 1) ≤ cfg.blockSize * (X / cfg.blockSize) :=
              Nat.mul_le_mul_left cfg.blockSize hklt
            have h2 : cfg.blockSize * (k + 1) = cfg.blockSize * k + cfg.blockSize := by
              ring
            omega
          have : False := by
            have hsp : 0 < s.length := List.length_pos.mpr (fileSignatures_ne_nil hs)
            have hx := hu.2
            have hb2 := hb.2
            omega
          exact this.elim
      rw [hdata2, processBlock_none cfg _ _ _ _ hnone]
      have heq : cfg.blockSize * k + cfg.blockSize = cfg.blockSize * (k + 1) := by ring
      rw [heq]
      refine auditEq_trans (ih (k + 1) (iter + 1) _ _ ?_ hklt ?_)
        ⟨rfl, rfl, rfl, rfl, rfl⟩
      · rw [read_data, seek_data, hdata]
      · omega
    · -- the hit block
      have hkeq : k = X / cfg.blockSize := by omega
      subst hkeq
      have hfind_sig : bytesFind ((src.drop (cfg.blockSize * (X / cfg.blockSize))).take
          cfg.blockSize) sig 0 = some (X % cfg.blockSize) := by
        rw [bytesFind_eq_some_iff hsne]
        refine ⟨Nat.zero_le _, ?_, ?_⟩
        · rw [matchAt_take_iff hsne]
          constructor
          · rw [matchAt_drop, hqstar]
            exact hocc
          · omega
        · intro m _ hm
          cases hmt : matchAt ((src.drop (cfg.blockSize * (X / cfg.blockSize))).take
              cfg.blockSize) sig m with
          | false => rfl
          | true =>
            have hb := matchAt_block hsne hmt
            have hu := huniq sig hsig (cfg.blockSize * (X / cfg.blockSize) + m) hb.1
            have : False := by omega
            exact this.elim
      have hothers : ∀ s ∈ fileSignatures tag, s ≠ sig →
          bytesFind ((src.drop (cfg.blockSize * (X / cfg.blockSize))).take
            cfg.blockSize) s 0 = none := by
        intro s hs hne
        rw [bytesFind_eq_none_iff (fileSignatures_ne_nil hs)]
        intro m _
        cases hmt : matchAt ((src.drop (cfg.blockSize * (X / cfg.blockSize))).take
            cfg.blockSize) s m with
        | false => rfl
        | true =>
          have hb := matchAt_block (fileSignatures_ne_nil hs) hmt
          have hu := huniq s hs (cfg.blockSize * (X / cfg.blockSize) + m) hb.1
          exact absurd hu.1 hne
      rw [hdata2, processBlock_single cfg _ _ tag sig (X % cfg.blockSize) hft hsig
        hothers hfind_sig]
      rw [hqstar]
      have hdev2 : (((dev.seek (cfg.blockSize * (X / cfg.blockSize))).read
          cfg.blockSize).2).data = src := by
        rw [read_data, seek_data, hdata]
      have hrec : (recoverFile cfg ((((dev.seek (cfg.blockSize * (X / cfg.blockSize))).read
          cfg.blockSize).2).seek X) tag X).1 =
          some ⟨tag, X, (src.drop X).take (p + tr.length)⟩ := by
        have := recoverFile_deepScan_exact cfg ((((dev.seek (cfg.blockSize *
          (X / cfg.blockSize))).read cfg.blockSize).2).seek X) tag X tr p hds htr
          (by rw [seek_data, hdev2]; exact hfind) h100 hmax
          (by rw [seek_data, hdev2]; exact hval)
        rw [seek_data, hdev2] at this
        exact this
      rw [handleHit_fst_some cfg _ tag X _ _ hrec]
      refine auditEq_trans (scanLoop_no_hits cfg src src.length f (iter + 1)
        (cfg.blockSize * (X / cfg.blockSize) + cfg.blockSize) _ _ ?_ ?_) ?_
      · simp [Device.seek, seek_data, read_data, hdata]
      · intro t ht s hs i hi
        rw [hft] at ht
        have ht2 : t = tag := by simpa using ht
        subst ht2
        cases hmt : matchAt src s i with
        | false => rfl
        | true =>
          have hu := huniq s hs i hmt
          have : False := by omega
          exact this.elim
      · exact ⟨rfl, rfl, rfl, rfl, rfl⟩

/-! ### The two possible outcomes of a hit, and offset bounds on
everything the sweep reports -/

theorem handleHit_cases (cfg : Config) (dev : Device) (ft : String) (pos : Nat)
    (st : ScanState) :
    (handleHit cfg dev ft pos st).1 =
      { st with hitsLog := st.hitsLog ++ [(ft, pos)]
                falsePositives := st.falsePositives + 1 } ∨
    ∃ rec : FileRecord, rec.fileType = ft ∧ rec.startPosition = pos ∧
      (handleHit cfg dev ft pos st).1 =
      { st with hitsLog := st.hitsLog ++ [(ft, pos)]
                totalFilesRecovered := st.totalFilesRecovered + 1
                recoveredByType := dictIncr st.recoveredByType ft
                recoveredFiles := st.recoveredFiles ++ [rec] } := by
  cases hr : (recoverFile cfg (dev.seek pos) ft pos).1 with
  | none =>
    left
    rw [handleHit_fst_none cfg dev ft pos st hr]
  | some rec =>
    right
    have hfields := recoverFile_some_iff cfg (dev.seek pos) ft pos rec hr
    refine ⟨rec, hfields.2.2.2.1, hfields.2.2.2.2, ?_⟩
    rw [handleHit_fst_some cfg dev ft pos st rec hr]

theorem sigStep_bound (cfg : Config) (data : List Byte) (position : Nat) (ft : String)
    (B : Nat) (s : List Byte) (hsne : s ≠ [])
    (hdata : data.length ≤ cfg.blockSize) (hpos : position + cfg.blockSize ≤ B)
    (acc : ScanState × Device)
    (h1 : ∀ e ∈ acc.1.hitsLog, e.2 < B)
    (h2 : ∀ r ∈ acc.1.recoveredFiles, r.startPosition < B) :
    (∀ e ∈ (sigStep cfg data position ft acc s).1.hitsLog, e.2 < B) ∧
    (∀ r ∈ (sigStep cfg data position ft acc s).1.recoveredFiles,
      r.startPosition < B) := by
  rw [sigStep]
  cases hf : bytesFind data s 0 with
  | none => exact ⟨h1, h2⟩
  | some j =>
    have hj := ((bytesFind_eq_some_iff hsne).mp hf).2.1
    have hjb := matchAt_le hj hsne
    have hsp : 0 < s.length := List.length_pos.mpr hsne
    have hjlt : position + j < B := by omega
    dsimp only
    rcases handleHit_cases cfg acc.2 ft (position + j) acc.1 with hc | ⟨rec, hty, hspos, hc⟩
    · constructor
      · rw [hc]
        intro e he
        rcases List.mem_append.mp he with hin | hin
        · exact h1 e hin
        · have : e = (ft, position + j) := by simpa using hin
          rw [this]
          exact hjlt
      · rw [hc]
        intro r hr
        exact h2 r hr
    · constructor
      · rw [hc]
        intro e he
        rcases List.mem_append.mp he with hin | hin
        · exact h1 e hin
        · have : e = (ft, position + j) := by simpa using hin
          rw [this]
          exact hjlt
      · rw [hc]
        intro r hr
        rcases List.mem_append.mp hr with hin | hin
        · exact h2 r hin
        · have : r = rec := by simpa using hin
          rw [this, hspos]
          exact hjlt

theorem foldSigs_bound (cfg : Config) (data : List Byte) (position : Nat) (ft : String)
    (B : Nat) (hdata : data.length ≤ cfg.blockSize)
    (hpos : position + cfg.blockSize ≤ B) :
    ∀ (sigs : List (List Byte)), (∀ s ∈ sigs, s ≠ []) →
      ∀ (acc : ScanState × Device),
        (∀ e ∈ acc.1.hitsLog, e.2 < B) →
        (∀ r ∈ acc.1.recoveredFiles, r.startPosition < B) →
        (∀ e ∈ (sigs.foldl (sigStep cfg data position ft) acc).1.hitsLog, e.2 < B) ∧
        (∀ r ∈ (sigs.foldl (sigStep cfg data position ft) acc).1.recoveredFiles,
          r.startPosition < B) := by
  intro sigs
  induction sigs with
  | nil => intro _ acc h1 h2; exact ⟨h1, h2⟩
  | cons s tl ih =>
    intro hne acc h1 h2
    rw [List.foldl_cons]
    have hstep := sigStep_bound cfg data position ft B s
      (hne s (List.mem_cons_self s tl)) hdata hpos acc h1 h2
    exact ih (fun x hx => hne x (List.mem_cons_of_mem s hx)) _ hstep.1 hstep.2

theorem processBlock_bound (cfg : Config) (data : List Byte) (position : Nat)
    (dev : Device) (st : ScanState) (B : Nat)
    (hdata : data.length ≤ cfg.blockSize)
    (hpos : position + cfg.blockSize ≤ B)
    (h1 : ∀ e ∈ st.hitsLog, e.2 < B)
    (h2 : ∀ r ∈ st.recoveredFiles, r.startPosition < B) :
    (∀ e ∈ (processBlock cfg data position dev st).1.hitsLog, e.2 < B) ∧
    (∀ r ∈ (processBlock cfg data position dev st).1.recoveredFiles,
      r.startPosition < B) := by
  rw [processBlock]
  have hgen : ∀ (l : List String) (acc : ScanState × Device),
      (∀ e ∈ acc.1.hitsLog, e.2 < B) →
      (∀ r ∈ acc.1.recoveredFiles, r.startPosition < B) →
      (∀ e ∈ (l.foldl (fun acc ft => (fileSignatures ft).foldl
          (sigStep cfg data position ft) acc) acc).1.hitsLog, e.2 < B) ∧
      (∀ r ∈ (l.foldl (fun acc ft => (fileSignatures ft).foldl
          (sigStep cfg data position ft) acc) acc).1.recoveredFiles,
        r.startPosition < B) := by
    intro l
    induction l with
    | nil => intro acc ha hb; exact ⟨ha, hb⟩
    | cons t tl ih =>
      intro acc ha hb
      rw [List.foldl_cons]
      have hstep := foldSigs_bound cfg data position t B hdata hpos
        (fileSignatures t) (fun s hs => fileSignatures_ne_nil hs) acc ha hb
      exact ih _ hstep.1 hstep.2
  exact hgen cfg.fileTypes (st, dev) h1 h2

theorem scanLoop_bound (cfg : Config) (src : List Byte) (flag : Nat → Bool)
    (dsize : Nat) :
    ∀ (fuel iter pos : Nat) (dev : Device) (st : ScanState),
      dev.data = src →
      (∀ e ∈ st.hitsLog, e.2 < dsize + cfg.blockSize) →
      (∀ r ∈ st.recoveredFiles, r.startPosition < dsize + cfg.blockSize) →
      (∀ e ∈ (scanLoop cfg flag dsize fuel iter pos dev st).1.hitsLog,
        e.2 < dsize + cfg.blockSize) ∧
      (∀ r ∈ (scanLoop cfg flag dsize fuel iter pos dev st).1.recoveredFiles,
        r.startPosition < dsize + cfg.blockSize) := by
  intro fuel
  induction fuel with
  | zero => intro iter pos dev st _ h1 h2; exact ⟨h1, h2⟩
  | succ f ih =>
    intro iter pos dev st hdata h1 h2
    simp only [scanLoop]
    split
    · rename_i hpos
      split
      · exact ⟨h1, h2⟩
      · split
        · exact ⟨h1, h2⟩
        · have hdl : (((dev.seek pos).read cfg.blockSize).1).length ≤ cfg.blockSize :=
            chunk_length_le_n _ _
          have hb := processBlock_bound cfg ((dev.seek pos).read cfg.blockSize).1 pos
            ((dev.seek pos).read cfg.blockSize).2
            { st with bytesScanned :=
                st.bytesScanned + (((dev.seek pos).read cfg.blockSize).1).length }
            (dsize + cfg.blockSize) hdl (by omega) h1 h2
          refine ih (iter + 1) (pos + cfg.blockSize) _ _ ?_ hb.1 hb.2
          rw [processBlock_data, read_data, seek_data, hdata]
    · exact ⟨h1, h2⟩

/-! ### Counter-table lemmas and the statistics invariant -/

theorem lookup_none_not_mem {m : List (String × Nat)} {k : String}
    (h : List.lookup k m = none) : k ∉ keysOf m := by
  induction m with
  | nil => simp [keysOf]
  | cons a tl ih =>
    rw [List.lookup] at h
    cases hbe : (k == a.1) with
    | true => rw [hbe] at h; cases h
    | false =>
      rw [hbe] at h
      simp only [keysOf, List.map_cons, List.mem_cons]
      rintro (heq | hmem)
      · rw [heq] at hbe; simp at hbe
      · exact ih h hmem

theorem dictIncr_keys (m : List (String × Nat)) (k : String) :
    keysOf (dictIncr m k) = keysOf m := by
  induction m with
  | nil => rfl
  | cons a tl ih =>
    simp only [dictIncr, keysOf, List.map_cons] at ih ⊢
    by_cases ha : a.1 = k
    · rw [if_pos ha]
      simpa using ih
    · rw [if_neg ha]
      simpa using ih

theorem dictIncr_not_mem {m : List (String × Nat)} {k : String}
    (h : k ∉ keysOf m) : dictIncr m k = m := by
  induction m with
  | nil => rfl
  | cons a tl ih =>
    simp only [keysOf, List.map_cons, List.mem_cons, not_or] at h
    simp only [dictIncr, List.map_cons]
    rw [if_neg (fun he => h.1 he.symm)]
    have := ih (by simpa [keysOf] using h.2)
    simp only [dictIncr] at this
    rw [this]

theorem dictIncr_sum {m : List (String × Nat)} {k : String}
    (hnd : (keysOf m).Nodup) (hk : (List.lookup k m).isSome = true) :
    sumCounts (dictIncr m k) = sumCounts m + 1 := by
  induction m with
  | nil => simp [List.lookup] at hk
  | cons a tl ih =>
    simp only [keysOf, List.map_cons, List.nodup_cons] at hnd
    by_cases ha : a.1 = k
    · have htl : dictIncr tl k = tl := by
        refine dictIncr_not_mem ?_
        rw [← ha]
        exact hnd.1
      simp only [dictIncr, List.map_cons, if_pos ha, htl, sumCounts, List.map_cons,
        List.sum_cons]
      simp only [dictIncr] at htl
      rw [htl]
      omega
    · have hk2 : (List.lookup k tl).isSome = true := by
        rw [List.lookup] at hk
        have : (k == a.1) = false := by
          simp only [beq_eq_false_iff_ne, ne_eq]
          intro he
          exact ha he.symm
        rw [this] at hk
        exact hk
      have := ih hnd.2 hk2
      simp only [dictIncr, List.map_cons, if_neg ha, sumCounts, List.map_cons,
        List.sum_cons] at this ⊢
      omega

theorem dictIncr_lookup_isSome (m : List (String × Nat)) (k t : String) :
    (List.lookup t (dictIncr m k)).isSome = (List.lookup t m).isSome := by
  induction m with
  | nil => rfl
  | cons a tl ih =>
    simp only [dictIncr, List.map_cons]
    by_cases ha : a.1 = k
    · rw [if_pos ha]
      rw [List.lookup, List.lookup]
      cases hbe : (t == a.1) with
      | true => rfl
      | false => simpa [dictIncr] using ih
    · rw [if_neg ha]
      rw [List.lookup, List.lookup]
      cases hbe : (t == a.1) with
      | true => rfl
      | false => simpa [dictIncr] using ih

theorem keysOf_map_set (m : List (String × Nat)) (k : String) (v : Nat) :
    keysOf (m.map (fun kv => if kv.1 = k then (kv.1, v) else kv)) = keysOf m := by
  induction m with
  | nil => rfl
  | cons a tl ih =>
    simp only [keysOf, List.map_cons] at ih ⊢
    by_cases hak : a.1 = k
    · rw [if_pos hak]; simpa using ih
    · rw [if_neg hak]; simpa using ih

theorem lookup_map_set_isSome (m : List (String × Nat)) (k t : String) (v : Nat) :
    (List.lookup t (m.map (fun kv => if kv.1 = k then (kv.1, v) else kv))).isSome
      = (List.lookup t m).isSome := by
  induction m with
  | nil => rfl
  | cons a tl ih =>
    simp only [List.map_cons]
    by_cases hak : a.1 = k
    · rw [if_pos hak]
      rw [List.lookup, List.lookup]
      cases hbe : (t == a.1) with
      | true => rfl
      | false => simpa using ih
    · rw [if_neg hak]
      rw [List.lookup, List.lookup]
      cases hbe : (t == a.1) with
      | true => rfl
      | false => simpa using ih

theorem lookup_map_set_self (m : List (String × Nat)) (k : String) (v : Nat)
    (hsome : (List.lookup k m).isSome = true) :
    List.lookup k (m.map (fun kv => if kv.1 = k then (kv.1, v) else kv)) = some v := by
  induction m with
  | nil => simp [List.lookup] at hsome
  | cons a tl ih =>
    simp only [List.map_cons]
    rw [List.lookup] at hsome
    by_cases hak : a.1 = k
    · rw [if_pos hak, List.lookup]
      have hbe : (k == a.1) = true := by simp [hak]
      rw [hbe]
    · rw [if_neg hak, List.lookup]
      have hbe : (k == a.1) = false := by
        simp only [beq_eq_false_iff_ne, ne_eq]
        intro he
        exact hak he.symm
      rw [hbe]
      rw [hbe] at hsome
      exact ih hsome

theorem lookup_append_single_isSome (m : List (String × Nat)) (k t : String) (v : Nat)
    (h : (List.lookup t m).isSome = true) :
    (List.lookup t (m ++ [(k, v)])).isSome = true := by
  induction m with
  | nil => simp [List.lookup] at h
  | cons a tl ih =>
    rw [List.lookup] at h
    rw [List.cons_append, List.lookup]
    cases hbe : (t == a.1) with
    | true => rfl
    | false =>
      rw [hbe] at h
      exact ih h

theorem lookup_append_single_self (m : List (String × Nat)) (k : String) (v : Nat) :
    (List.lookup k (m ++ [(k, v)])).isSome = true := by
  induction m with
  | nil => simp [List.lookup]
  | cons a tl ih =>
    rw [List.cons_append, List.lookup]
    cases hbe : (k == a.1) with
    | true => rfl
    | false => exact ih

theorem dictSet_lookup_isSome_mono (m : List (String × Nat)) (k t : String) (v : Nat)
    (h : (List.lookup t m).isSome = true) :
    (List.lookup t (dictSet m k v)).isSome = true := by
  rw [dictSet]
  split
  · rw [lookup_map_set_isSome]
    exact h
  · exact lookup_append_single_isSome m k t v h

theorem dictSet_lookup_self_isSome (m : List (String × Nat)) (k : String) (v : Nat) :
    (List.lookup k (dictSet m k v)).isSome = true := by
  rw [dictSet]
  split
  · rename_i hsome
    rw [lookup_map_set_self m k v hsome]
    rfl
  · exact lookup_append_single_self m k v

theorem dictSet_keys_nodup (m : List (String × Nat)) (k : String) (v : Nat)
    (hnd : (keysOf m).Nodup) : (keysOf (dictSet m k v)).Nodup := by
  rw [dictSet]
  split
  · rw [keysOf_map_set]
    exact hnd
  · rename_i hnone
    have hk : keysOf (m ++ [(k, v)]) = keysOf m ++ [k] := by
      simp [keysOf]
    rw [hk, List.nodup_append]
    refine ⟨hnd, List.nodup_singleton k, ?_⟩
    intro x hx
    simp only [List.mem_singleton]
    intro he
    subst he
    have hnotmem : x ∉ keysOf m := by
      refine lookup_none_not_mem ?_
      cases hl : List.lookup x m with
      | none => rfl
      | some w =>
        rw [hl] at hnone
        simp at hnone
    exact hnotmem hx

theorem dictSet_values_bound (m : List (String × Nat)) (k : String)
    (hz : ∀ kv ∈ m, kv.2 = 0) : ∀ kv ∈ dictSet m k 0, kv.2 = 0 := by
  rw [dictSet]
  split
  · intro kv hkv
    rcases List.mem_map.mp hkv with ⟨x, hx, he⟩
    by_cases hxk : x.1 = k
    · rw [if_pos hxk] at he
      rw [← he]
    · rw [if_neg hxk] at he
      rw [← he]
      exact hz x hx
  · intro kv hkv
    rcases List.mem_append.mp hkv with hin | hin
    · exact hz kv hin
    · have : kv = (k, 0) := by simpa using hin
      rw [this]

theorem lookup_value_zero {m : List (String × Nat)} (hz : ∀ kv ∈ m, kv.2 = 0)
    {t : String} (h : (List.lookup t m).isSome = true) :
    List.lookup t m = some 0 := by
  cases hl : List.lookup t m with
  | none => rw [hl] at h; cases h
  | some v =>
    have hv := lookup_mem hl
    rcases List.mem_map.mp hv with ⟨kv, hkv, he⟩
    rw [hz kv hkv] at he
    rw [← he]

theorem sumCounts_zero {m : List (String × Nat)} (hz : ∀ kv ∈ m, kv.2 = 0) :
    sumCounts m = 0 := by
  induction m with
  | nil => rfl
  | cons a tl ih =>
    simp only [sumCounts, List.map_cons, List.sum_cons]
    rw [hz a (List.mem_cons_self a tl)]
    simp only [sumCounts] at ih
    rw [ih (fun kv hkv => hz kv (List.mem_cons_of_mem a hkv))]

theorem initRecoveredByType_spec (l : List String) :
    (keysOf (initRecoveredByType l)).Nodup ∧
    (∀ kv ∈ initRecoveredByType l, kv.2 = 0) ∧
    (∀ t ∈ l, (List.lookup t (initRecoveredByType l)).isSome = true) := by
  rw [initRecoveredByType]
  have hgen : ∀ (l2 : List String) (m : List (String × Nat)),
      (keysOf m).Nodup → (∀ kv ∈ m, kv.2 = 0) →
      (keysOf (l2.foldl (fun m f => dictSet m f 0) m)).Nodup ∧
      (∀ kv ∈ l2.foldl (fun m f => dictSet m f 0) m, kv.2 = 0) ∧
      (∀ t, (List.lookup t m).isSome = true →
        (List.lookup t (l2.foldl (fun m f => dictSet m f 0) m)).isSome = true) ∧
      (∀ t ∈ l2, (List.lookup t (l2.foldl (fun m f => dictSet m f 0) m)).isSome
        = true) := by
    intro l2
    induction l2 with
    | nil =>
      intro m hnd hz
      exact ⟨hnd, hz, fun t ht => ht, fun t ht => absurd ht (List.not_mem_nil t)⟩
    | cons f tl ih =>
      intro m hnd hz
      rw [List.foldl_cons]
      have hstep := ih (dictSet m f 0) (dictSet_keys_nodup m f 0 hnd)
        (dictSet_values_bound m f hz)
      refine ⟨hstep.1, hstep.2.1, ?_, ?_⟩
      · intro t ht
        exact hstep.2.2.1 t (dictSet_lookup_isSome_mono m f t 0 ht)
      · intro t ht
        rcases List.mem_cons.mp ht with heq | hmem
        · subst heq
          exact hstep.2.2.1 t (dictSet_lookup_self_isSome m t 0)
        · exact hstep.2.2.2 t hmem
  have := hgen l [] (by simp [keysOf]) (by simp)
  exact ⟨this.1, this.2.1, this.2.2.2⟩

theorem statsInvariant_init (cfg : Config) : statsInvariant cfg (initState cfg) := by
  have hspec := initRecoveredByType_spec cfg.fileTypes
  refine ⟨hspec.1, ?_, fun t ht => hspec.2.2 t ht⟩
  rw [initState]
  simp only
  rw [sumCounts_zero hspec.2.1]

theorem handleHit_stats (cfg : Config) (dev : Device) (ft : String) (pos : Nat)
    (st : ScanState) (hmem : ft ∈ cfg.fileTypes) (hinv : statsInvariant cfg st) :
    statsInvariant cfg (handleHit cfg dev ft pos st).1 := by
  obtain ⟨hnd, htot, hlook⟩ := hinv
  rcases handleHit_cases cfg dev ft pos st with hc | ⟨rec, _, _, hc⟩
  · rw [hc]
    exact ⟨hnd, htot, hlook⟩
  · rw [hc]
    refine ⟨?_, ?_, ?_⟩
    · rw [dictIncr_keys]
      exact hnd
    · simp only
      rw [dictIncr_sum hnd (hlook ft hmem), htot]
    · intro t ht
      simp only
      rw [dictIncr_lookup_isSome]
      exact hlook t ht

theorem foldSigs_stats (cfg : Config) (data : List Byte) (position : Nat) (ft : String)
    (hmem : ft ∈ cfg.fileTypes) :
    ∀ (sigs : List (List Byte)) (acc : ScanState × Device),
      statsInvariant cfg acc.1 →
      statsInvariant cfg (sigs.foldl (sigStep cfg data position ft) acc).1 := by
  intro sigs
  induction sigs with
  | nil => intro acc h; exact h
  | cons s tl ih =>
    intro acc h
    rw [List.foldl_cons]
    refine ih _ ?_
    rw [sigStep]
    cases hf : bytesFind data s 0 with
    | none => exact h
    | some j =>
      dsimp only
      exact handleHit_stats cfg acc.2 ft (position + j) acc.1 hmem h

theorem processBlock_stats (cfg : Config) (data : List Byte) (position : Nat)
    (dev : Device) (st : ScanState) (hinv : statsInvariant cfg st) :
    statsInvariant cfg (processBlock cfg data position dev st).1 := by
  rw [processBlock]
  have hgen : ∀ (l : List String), (∀ t ∈ l, t ∈ cfg.fileTypes) →
      ∀ (acc : ScanState × Device), statsInvariant cfg acc.1 →
      statsInvariant cfg ((l.foldl (fun acc ft => (fileSignatures ft).foldl
        (sigStep cfg data position ft) acc) acc)).1 := by
    intro l
    induction l with
    | nil => intro _ acc h; exact h
    | cons t tl ih =>
      intro hl acc h
      rw [List.foldl_cons]
      refine ih (fun x hx => hl x (List.mem_cons_of_mem t hx)) _ ?_
      exact foldSigs_stats cfg data position t (hl t (List.mem_cons_self t tl)) _ acc h
  exact hgen cfg.fileTypes (fun t ht => ht) (st, dev) hinv

theorem scanLoop_stats (cfg : Config) (flag : Nat → Bool) (dsize : Nat) :
    ∀ (fuel iter pos : Nat) (dev : Device) (st : ScanState),
      statsInvariant cfg st →
      statsInvariant cfg (scanLoop cfg flag dsize fuel iter pos dev st).1 := by
  intro fuel
  induction fuel with
  | zero => intro iter pos dev st h; exact h
  | succ f ih =>
    intro iter pos dev st h
    simp only [scanLoop]
    split
    · split
      · exact ⟨h.1, h.2.1, h.2.2⟩
      · split
        · exact h
        · refine ih (iter + 1) (pos + cfg.blockSize) _ _ ?_
          refine processBlock_stats cfg _ pos _ _ ?_
          exact ⟨h.1, h.2.1, h.2.2⟩
    · exact h

/-! ### The cooperative timeout stops exactly at a block boundary -/

theorem scanLoop_timeout (cfg : Config) (src : List Byte) (flag : Nat → Bool)
    (k dsize : Nat) (hbs : 0 < cfg.blockSize)
    (hflag : ∀ i, flag i = true ↔ k ≤ i) (hds : dsize ≤ src.length) :
    ∀ (n fuel iter pos : Nat) (dev : Device) (st : ScanState),
      dev.data = src → n = k - iter → iter ≤ k → n < fuel →
      pos + n * cfg.blockSize < dsize →
      scanLoop cfg flag dsize fuel iter pos dev st =
        ({ (scanLoop cfg (fun _ => false) dsize n iter pos dev st).1 with
            timeoutReached := true },
         (scanLoop cfg (fun _ => false) dsize n iter pos dev st).2) := by
  intro n
  induction n with
  | zero =>
    intro fuel iter pos dev st hdata hn hik hfuel hpos
    cases fuel with
    | zero => omega
    | succ f =>
      conv_lhs => rw [scanLoop]
      rw [if_pos (by omega : pos < dsize)]
      have hfl : flag iter = true := (hflag iter).mpr (by omega)
      rw [if_pos (by rw [hfl])]
      rfl
  | succ m ih =>
    intro fuel iter pos dev st hdata hn hik hfuel hpos
    have hik2 : iter < k := by omega
    have hmul : (m + 1) * cfg.blockSize = m * cfg.blockSize + cfg.blockSize := by
      ring
    cases fuel with
    | zero => omega
    | succ f =>
      have hposlt : pos < dsize := by omega
      have hfl : flag iter = false := by
        cases hf : flag iter with
        | false => rfl
        | true =>
          have := (hflag iter).mp hf
          have : False := by omega
          exact this.elim
      have hne : ((dev.seek pos).read cfg.blockSize).1.isEmpty = false := by
        rw [read_chunk]
        simp only [Device.seek, hdata]
        cases he : ((src.drop pos).take cfg.blockSize).isEmpty with
        | false => rfl
        | true =>
          rw [List.isEmpty_eq_true, ← List.length_eq_zero] at he
          rw [List.length_take, List.length_drop] at he
          have : False := by omega
          exact this.elim
      simp only [scanLoop]
      rw [if_pos hposlt, if_pos hposlt]
      rw [if_neg (by rw [hfl]; simp)]
      simp only [Bool.false_eq_true, if_false]
      rw [if_neg (by rw [hne]; simp), if_neg (by rw [hne]; simp)]
      refine ih f (iter + 1) (pos + cfg.blockSize) _ _ ?_ ?_ ?_ ?_ ?_
      · rw [processBlock_data, read_data, seek_data, hdata]
      · omega
      · omega
      · omega
      · omega

/-! ### The claims -/

/-- C4: `validate(bytes, tag)` returns true iff the buffer is at least 100
bytes long and either the format defines no validation substrings or at
least one of them occurs somewhere in the buffer; every buffer under 100
bytes is rejected unconditionally. -/
theorem c4_validate_iff (data : List Byte) (tag : String) :
    validateFileContent data tag = true ↔
      (100 ≤ data.length ∧
        (validationPatterns tag = [] ∨
         ∃ pat ∈ validationPatterns tag, containsSub data pat = true)) := by
  simp only [validateFileContent]
  by_cases hlen : data.length < 100
  · rw [if_pos hlen]
    constructor
    · intro h; cases h
    · rintro ⟨h1, -⟩
      have : False := by omega
      exact this.elim
  · rw [if_neg hlen]
    by_cases hemp : (validationPatterns tag).isEmpty
    · rw [if_pos hemp]
      constructor
      · intro _
        exact ⟨by omega, Or.inl (List.isEmpty_eq_true.mp hemp)⟩
      · intro _; rfl
    · rw [if_neg hemp]
      rw [List.any_eq_true]
      constructor
      · rintro ⟨pat, hmem, hc⟩
        exact ⟨by omega, Or.inr ⟨pat, hmem, hc⟩⟩
      · rintro ⟨h1, h2 | h2⟩
        · rw [h2] at hemp
          simp at hemp
        · exact h2

/-- C3: for every source, format and extraction strategy (the strategy
selection of `_recover_file`), the length of an extracted candidate never
exceeds the format's maximum candidate size.  This holds because every
entry of MAX_FILE_SIZES (and the 10 MiB default) is a multiple of the
4096-byte chunk size and at least one initial probe chunk long. -/
theorem c3_candidate_length_le_max (cfg : Config) (dev : Device) (ft : String)
    (d : List Byte) (h : (extractCandidate cfg dev ft).1 = some d) :
    d.length ≤ maxFileSize ft :=
  extractCandidate_le_max cfg dev ft d h

/-- C3 witness: heuristic extraction of a concrete 150-byte jpg candidate
satisfies the bound. -/
theorem c3_candidate_length_le_max_witness :
    (extractCandidate cfgWit ⟨srcWitC3, 0⟩ "jpg").1 = some srcWitC3 ∧
    srcWitC3.length ≤ maxFileSize "jpg" :=
  ⟨by decide, c3_candidate_length_le_max cfgWit ⟨srcWitC3, 0⟩ "jpg" srcWitC3 (by decide)⟩

/-- C5: a matched signature with fewer than 100 bytes available from the
match offset to the end of the source yields zero recovered files for that
hit and increments the false-positive counter by exactly one. -/
theorem c5_short_hit_false_positive (cfg : Config) (dev : Device) (ft : String)
    (pos : Nat) (st : ScanState) (h : dev.data.length < pos + 100) :
    handleHit cfg dev ft pos st =
      ({ st with hitsLog := st.hitsLog ++ [(ft, pos)]
                 falsePositives := st.falsePositives + 1 }, dev.seek pos) :=
  handleHit_short cfg dev ft pos st h

/-- C5 witness: a hit at offset 0 of a 50-byte source is counted as a false
positive and recovers nothing. -/
theorem c5_short_hit_false_positive_witness :
    handleHit cfgWit ⟨List.replicate 50 0, 0⟩ "jpg" 0 (initState cfgWit) =
      ({ initState cfgWit with
          hitsLog := (initState cfgWit).hitsLog ++ [("jpg", 0)]
          falsePositives := (initState cfgWit).falsePositives + 1 },
       Device.seek ⟨List.replicate 50 0, 0⟩ 0) :=
  c5_short_hit_false_positive cfgWit ⟨List.replicate 50 0, 0⟩ "jpg" 0
    (initState cfgWit) (by decide)

/-- C6: a candidate file record is produced only after extraction and
validation fully succeed: its bytes are exactly the extracted bytes, are at
least 100 long, and pass validation; a hit whose extraction returns no
candidate, whose buffer is under 100 bytes, or whose validation fails never
produces a record (the write of line 254 happens only in the success
branch). -/
theorem c6_write_only_after_validation (cfg : Config) (dev : Device) (ft : String)
    (pos : Nat) (r : FileRecord) (h : (recoverFile cfg dev ft pos).1 = some r) :
    (extractCandidate cfg (dev.seek pos) ft).1 = some r.data ∧
    100 ≤ r.data.length ∧ validateFileContent r.data ft = true ∧
    r.fileType = ft ∧ r.startPosition = pos :=
  recoverFile_some_iff cfg dev ft pos r h

/-- C6 witness: a concrete successful 160-byte recovery. -/
theorem c6_write_only_after_validation_witness :
    (extractCandidate cfgWit (Device.seek ⟨srcWitC6, 0⟩ 0) "jpg").1 =
        some (⟨"jpg", 0, srcWitC6⟩ : FileRecord).data ∧
    100 ≤ (⟨"jpg", 0, srcWitC6⟩ : FileRecord).data.length ∧
    validateFileContent (⟨"jpg", 0, srcWitC6⟩ : FileRecord).data "jpg" = true ∧
    (⟨"jpg", 0, srcWitC6⟩ : FileRecord).fileType = "jpg" ∧
    (⟨"jpg", 0, srcWitC6⟩ : FileRecord).startPosition = 0 :=
  c6_write_only_after_validation cfgWit ⟨srcWitC6, 0⟩ "jpg" 0
    ⟨"jpg", 0, srcWitC6⟩ (by decide)

/-- C7: after every extraction attempt — successful, empty-handed, or not —
the source's read cursor (indeed the whole device value) is restored to the
state it had when `_recover_file` began, so the outer sweep's position is
never corrupted by a nested extraction read. -/
theorem c7_cursor_restored (cfg : Config) (dev : Device) (ft : String) (pos : Nat) :
    ((recoverFile cfg dev ft pos).2).cursor = dev.cursor ∧
    (recoverFile cfg dev ft pos).2 = dev := by
  refine ⟨?_, recoverFile_device cfg dev ft pos⟩
  rw [recoverFile_device]

set_option maxRecDepth 1000000 in
/-- C1 counterexample: the claim as stated is false.  `srcCexC1` contains
the jpg leading magic at offset X = 510 followed by the format's trailer
ending at offset Y = 709, with Y - X + 1 = 200 between 100 and the jpg
maximum candidate size; yet a deep-scan run (default 512-byte blocks)
recovers zero candidates, because the magic straddles a block boundary and
`data.find` never sees it inside a single block window. -/
theorem c1_counterexample :
    ([0xFF, 0xD8, 0xFF, 0xE0] ∈ fileSignatures "jpg") ∧
    matchAt srcCexC1 [0xFF, 0xD8, 0xFF, 0xE0] 510 = true ∧
    fileTrailer "jpg" = some [0xFF, 0xD9] ∧
    bytesFind (srcCexC1.drop 510) [0xFF, 0xD9] 0 = some 198 ∧
    100 ≤ 200 ∧ 200 ≤ maxFileSize "jpg" ∧
    cfgCexC1.deepScan = true ∧
    (scanDeviceData cfgCexC1 (fun _ => false) ⟨srcCexC1, 0⟩).1.recoveredFiles = [] ∧
    (scanDeviceData cfgCexC1 (fun _ => false) ⟨srcCexC1, 0⟩).1.totalFilesRecovered
      = 0 := by
  refine ⟨by decide, by decide, by decide, by decide, by decide, by decide, by decide,
    ?_, ?_⟩ <;> decide

/-- C1 (amended): for every synthetic source, deep-scan session over a
single format, and offsets X, Y: if the format's magic occurs wholly inside
one block window at X and nowhere else, the format's trailer first occurs
(after X) ending at Y = X + p + |trailer| - 1, the span length is between
100 and the format's maximum size, and the span passes the format's
validation, then the run recovers exactly one candidate, spanning [X, Y]
inclusive of the trailer and byte-for-byte identical to the source there. -/
theorem c1_deep_scan_unique_candidate (cfg : Config) (src : List Byte) (tag : String)
    (sig tr : List Byte) (X p c0 : Nat)
    (hft : cfg.fileTypes = [tag]) (hbs : 0 < cfg.blockSize)
    (hds : cfg.deepScan = true) (hnomax : cfg.maxScanSize = none)
    (htr : fileTrailer tag = some tr) (hsig : sig ∈ fileSignatures tag)
    (hocc : matchAt src sig X = true)
    (huniq : ∀ s ∈ fileSignatures tag, ∀ i < src.length,
      matchAt src s i = true → s = sig ∧ i = X)
    (halign : X % cfg.blockSize + sig.length ≤ cfg.blockSize)
    (hfind : bytesFind (src.drop X) tr 0 = some p)
    (h100 : 100 ≤ p + tr.length) (hmax : p + tr.length ≤ maxFileSize tag)
    (hval : validateFileContent ((src.drop X).take (p + tr.length)) tag = true) :
    (scanDeviceData cfg (fun _ => false) ⟨src, c0⟩).1.recoveredFiles =
        [⟨tag, X, (src.drop X).take (p + tr.length)⟩] ∧
    (scanDeviceData cfg (fun _ => false) ⟨src, c0⟩).1.totalFilesRecovered = 1 ∧
    (scanDeviceData cfg (fun _ => false) ⟨src, c0⟩).1.falsePositives = 0 := by
  have huniq2 : ∀ s ∈ fileSignatures tag, ∀ i, matchAt src s i = true →
      s = sig ∧ i = X := by
    intro s hs i hm
    have h1 := matchAt_le hm (fileSignatures_ne_nil hs)
    have h2 := List.length_pos.mpr (fileSignatures_ne_nil hs)
    exact huniq s hs i (by omega) hm
  have hmain := scanLoop_one_hit cfg src tag sig tr X p hft hbs hds htr hsig hocc
    huniq2 halign hfind h100 hmax hval (src.length + 1) 0 0
    (Device.seek ⟨src, c0⟩ 0) (initState cfg) rfl (Nat.zero_le _)
    (by omega)
  rw [Nat.mul_zero] at hmain
  have hsize : effectiveScanSize cfg (⟨src, c0⟩ : Device).data.length = src.length := by
    simp [effectiveScanSize, hnomax]
  rw [scanDeviceData]
  simp only [hsize]
  obtain ⟨e1, e2, e3, -, -⟩ := hmain
  refine ⟨?_, ?_, ?_⟩
  · rw [e1]
    simp [initState]
  · rw [e2]
    simp [initState]
  · rw [e3]
    simp [initState]

set_option maxRecDepth 1000000 in
/-- C1 witness: on `srcWitC1` (aligned jpg magic at 8, first trailer ending
at 115) the amended theorem yields exactly one recovered candidate spanning
bytes 8-115. -/
theorem c1_deep_scan_unique_candidate_witness :
    (scanDeviceData cfgWitC1 (fun _ => false) ⟨srcWitC1, 0⟩).1.recoveredFiles =
        [⟨"jpg", 8, (srcWitC1.drop 8).take 108⟩] ∧
    (scanDeviceData cfgWitC1 (fun _ => false) ⟨srcWitC1, 0⟩).1.totalFilesRecovered
        = 1 ∧
    (scanDeviceData cfgWitC1 (fun _ => false) ⟨srcWitC1, 0⟩).1.falsePositives = 0 := by
  have := c1_deep_scan_unique_candidate cfgWitC1 srcWitC1 "jpg"
    [0xFF, 0xD8, 0xFF, 0xE0] [0xFF, 0xD9] 8 106 0 rfl (by decide) rfl rfl
    (by decide) (by decide) (by decide) (by decide) (by decide) (by decide)
    (by decide) (by decide) (by decide)
  simpa using this

set_option maxRecDepth 1000000 in
/-- C2 counterexample: the claim as stated is false.  With
`max_scan_size = 8` on a 200-byte source, the first 64-byte block read
begins below the ceiling but crosses it; a jpg signature at offset 16 —
beyond the boundary — is both reported (hit log) and recovered, and its
extraction read bytes far beyond offset 8. -/
theorem c2_counterexample :
    cfgCexC2.maxScanSize = some 8 ∧ 8 < srcCexC2.length ∧
    (scanDeviceData cfgCexC2 (fun _ => false) ⟨srcCexC2, 0⟩).1.hitsLog
      = [("jpg", 16)] ∧
    (scanDeviceData cfgCexC2 (fun _ => false) ⟨srcCexC2, 0⟩).1.recoveredFiles.map
      (fun r => r.startPosition) = [16] := by
  refine ⟨by decide, by decide, ?_, ?_⟩ <;> decide

/-- C2 (amended): when `max_scan_size` is set, nonzero and strictly less
than the source size, every reported hit offset and every recovered
candidate's start offset is strictly below `max_scan_size + block_size`:
a signature can be reported past the ceiling only inside the final
boundary-crossing block read. -/
theorem c2_scan_ceiling_bound (cfg : Config) (src : List Byte) (flag : Nat → Bool)
    (c0 m : Nat) (hm : cfg.maxScanSize = some m) (hm0 : m ≠ 0)
    (hlt : m < src.length) :
    (∀ e ∈ (scanDeviceData cfg flag ⟨src, c0⟩).1.hitsLog,
      e.2 < m + cfg.blockSize) ∧
    (∀ r ∈ (scanDeviceData cfg flag ⟨src, c0⟩).1.recoveredFiles,
      r.startPosition < m + cfg.blockSize) := by
  have hsize : effectiveScanSize cfg (⟨src, c0⟩ : Device).data.length = m := by
    simp only [effectiveScanSize, hm]
    rw [if_pos ⟨hm0, hlt⟩]
  rw [scanDeviceData]
  simp only [hsize]
  exact scanLoop_bound cfg src flag m (m + 1) 0 0 (Device.seek ⟨src, c0⟩ 0)
    (initState cfg) rfl (by simp [initState]) (by simp [initState])

/-- C2 witness: on the counterexample fixture itself, every reported or
recovered offset is below 8 + 64. -/
theorem c2_scan_ceiling_bound_witness :
    (∀ e ∈ (scanDeviceData cfgCexC2 (fun _ => false) ⟨srcCexC2, 0⟩).1.hitsLog,
      e.2 < 8 + cfgCexC2.blockSize) ∧
    (∀ r ∈ (scanDeviceData cfgCexC2 (fun _ => false) ⟨srcCexC2, 0⟩).1.recoveredFiles,
      r.startPosition < 8 + cfgCexC2.blockSize) :=
  c2_scan_ceiling_bound cfgCexC2 srcCexC2 (fun _ => false) 0 8 rfl
    (by decide) (by decide)

theorem effectiveScanSize_le (cfg : Config) (n : Nat) :
    effectiveScanSize cfg n ≤ n := by
  rw [effectiveScanSize]
  cases cfg.maxScanSize with
  | none => exact Nat.le_refl n
  | some m =>
    dsimp only
    split
    · rename_i h
      exact Nat.le_of_lt h.2
    · exact Nat.le_refl n

/-- C8: a cooperative timeout flag that becomes set at the k-th
block-iteration check (with the k-th check still inside the scan range) is
observed only at the top of a block iteration: the run equals the untimed
run truncated to exactly k block iterations, with the timeout-reached flag
set — no further block is read, every candidate accepted before the stop is
preserved, and the stop point is a block boundary (an in-flight extraction
inside a block is never pre-empted, since the flag is consulted only
between blocks). -/
theorem c8_timeout_stops_at_block_boundary (cfg : Config) (src : List Byte)
    (flag : Nat → Bool) (k c0 : Nat) (hbs : 0 < cfg.blockSize)
    (hflag : ∀ i, flag i = true ↔ k ≤ i)
    (hmid : k * cfg.blockSize < effectiveScanSize cfg src.length) :
    scanDeviceData cfg flag ⟨src, c0⟩ =
      ({ (scanPrefix cfg src k).1 with timeoutReached := true },
       (scanPrefix cfg src k).2) := by
  have hds : effectiveScanSize cfg src.length ≤ src.length :=
    effectiveScanSize_le cfg src.length
  have hkk : k ≤ k * cfg.blockSize := Nat.le_mul_of_pos_right k hbs
  rw [scanDeviceData, scanPrefix]
  simp only
  exact scanLoop_timeout cfg src flag k (effectiveScanSize cfg src.length) hbs hflag
    hds k (effectiveScanSize cfg src.length + 1) 0 0 (Device.seek ⟨src, c0⟩ 0)
    (initState cfg) rfl (by omega) (by omega) (by omega) (by omega)

/-- C8 witness: on a 64-byte source with 16-byte blocks and a flag that
fires at the second check, the run equals the one-block prefix with the
timeout flag set. -/
theorem c8_timeout_stops_at_block_boundary_witness :
    scanDeviceData cfgWit (fun i => decide (1 ≤ i)) ⟨srcWitC8, 0⟩ =
      ({ (scanPrefix cfgWit srcWitC8 1).1 with timeoutReached := true },
       (scanPrefix cfgWit srcWitC8 1).2) :=
  c8_timeout_stops_at_block_boundary cfgWit srcWitC8 (fun i => decide (1 ≤ i)) 1 0
    (by decide) (fun i => by simp) (by decide)

/-- C9 counterexample: the claim as stated is false.  With block size 3 the
cursor moves from 5242878 to 5242881, crossing the 5 MiB boundary 5242880,
yet the emission predicate of line 198 is false; and with positive cursor
and size but zero elapsed time (zero throughput) the ETA of lines 201-207
is a finite 0 seconds, not "unknown". -/
theorem c9_counterexample :
    shouldEmitProgress (5242878 + 3) false = false ∧
    5242878 < 5 * 1024 * 1024 ∧ 5 * 1024 * 1024 ≤ 5242878 + 3 ∧
    etaReport 512 1024 0 = EtaReport.finite 0 := by
  refine ⟨by decide, by decide, by decide, ?_⟩
  rw [etaReport]
  rw [if_pos ⟨by omega, by omega⟩]
  norm_num

/-- C9 (amended): a progress line is emitted whenever the updated cursor is
an exact multiple of 5 MiB — which coincides with crossing a 5 MiB boundary
exactly when the block size divides 5 MiB — or when the ten-second condition
holds; the ETA is reported as "unknown" precisely when the cursor or the
device size is zero, while zero throughput with a positive cursor yields a
finite zero-second ETA. -/
theorem c9_progress_emission :
    (∀ (bs p m : Nat) (t : Bool), bs ∣ (5 * 1024 * 1024) → bs ∣ p →
      p < 5 * 1024 * 1024 * m → 5 * 1024 * 1024 * m ≤ p + bs →
      shouldEmitProgress (p + bs) t = true) ∧
    (∀ (p d : Nat) (e : ℚ), etaReport p d e = EtaReport.unknown ↔ (p = 0 ∨ d = 0)) ∧
    (∀ p d : Nat, 0 < p → 0 < d → etaReport p d 0 = EtaReport.finite 0) := by
  refine ⟨?_, ?_, ?_⟩
  · intro bs p m t hdvd hp hlt hle
    have hdB : bs ∣ 5 * 1024 * 1024 * m := Dvd.dvd.mul_right hdvd m
    have hsub : bs ∣ (5 * 1024 * 1024 * m - p) := Nat.dvd_sub' hdB hp
    have hpos : 0 < 5 * 1024 * 1024 * m - p := by omega
    have hge : bs ≤ 5 * 1024 * 1024 * m - p := Nat.le_of_dvd hpos hsub
    have heq : p + bs = 5 * 1024 * 1024 * m := by omega
    rw [shouldEmitProgress, heq]
    have hmod : 5 * 1024 * 1024 * m % (5 * 1024 * 1024) = 0 :=
      Nat.mul_mod_right _ _
    simp [hmod]
  · intro p d e
    rw [etaReport]
    split
    · rename_i h
      constructor
      · intro hcon
        cases hcon
      · rintro (h0 | h0)
        · have : False := by omega
          exact this.elim
        · have : False := by omega
          exact this.elim
    · rename_i h
      constructor
      · intro _
        by_cases hp : p = 0
        · exact Or.inl hp
        · right
          by_cases hd : d = 0
          · exact hd
          · exact absurd ⟨by omega, by omega⟩ h
      · intro _
        rfl
  · intro p d hp hd
    rw [etaReport]
    rw [if_pos ⟨hp, hd⟩]
    norm_num

/-- C9 witness: with block size 512 (which divides 5 MiB) the step from
5242368 to 5242880 triggers an emission, and a zero-throughput report at
cursor 512 of 1024 is a finite zero ETA. -/
theorem c9_progress_emission_witness :
    shouldEmitProgress (5242368 + 512) false = true ∧
    etaReport 512 1024 0 = EtaReport.finite 0 :=
  ⟨c9_progress_emission.1 512 5242368 1 false (by decide) (by decide)
      (by decide) (by decide),
   c9_progress_emission.2.2 512 1024 (by decide) (by decide)⟩

/-- C10: at every point of a scan the total-files-recovered counter equals
the sum of the per-format counts, the per-format table has duplicate-free
keys with an entry (initially zero) for every selected format tag, and this
invariant is preserved by the block sweep from any state satisfying it
(every acceptance increments the total and exactly one per-format entry
together). -/
theorem c10_counters_consistent (cfg : Config) :
    statsInvariant cfg (initState cfg) ∧
    (∀ t ∈ cfg.fileTypes, List.lookup t ((initState cfg).recoveredByType) = some 0) ∧
    (∀ (flag : Nat → Bool) (dsize fuel iter pos : Nat) (dev : Device) (st : ScanState),
      statsInvariant cfg st →
      statsInvariant cfg (scanLoop cfg flag dsize fuel iter pos dev st).1) := by
  refine ⟨statsInvariant_init cfg, ?_, ?_⟩
  · intro t ht
    have hspec := initRecoveredByType_spec cfg.fileTypes
    exact lookup_value_zero hspec.2.1 (hspec.2.2 t ht)
  · intro flag dsize fuel iter pos dev st h
    exact scanLoop_stats cfg flag dsize fuel iter pos dev st h

/-- C10 witness: the invariant transported through a concrete (empty) sweep
from the freshly initialized state. -/
theorem c10_counters_consistent_witness :
    statsInvariant cfgWit
      (scanLoop cfgWit (fun _ => false) 0 0 0 0 ⟨[], 0⟩ (initState cfgWit)).1 ∧
    List.lookup "jpg" ((initState cfgWit).recoveredByType) = some 0 :=
  ⟨(c10_counters_consistent cfgWit).2.2 (fun _ => false) 0 0 0 0 ⟨[], 0⟩
      (initState cfgWit) (c10_counters_consistent cfgWit).1,
   (c10_counters_consistent cfgWit).2.1 "jpg" (by decide)⟩

end ForensicX
